import Mathlib

/-!
# Verification of the arrowPuzzle core (grid model + level generator)

Shallow embedding of `src/logic/Grid.ts` and `src/logic/GameManager.ts`.

Conventions of the embedding:
* TypeScript numbers used as grid coordinates, worm ids and colors are
  modelled as `Int`; densities (`occupied / totalCells >= targetDensity`)
  are modelled exactly over `ℚ` (JS doubles; the exact-vs-float gap is
  irrelevant at the comparison points exercised here, and `0/0 = 0 ≥ d`
  is `false` in ℚ just as `NaN >= d` is `false` in JS).
* `Math.random()`-derived choices are supplied by an explicit `Oracle`:
  `Math.floor(Math.random() * n)` is `pick k % n` for a call counter `k`
  (every value in `[0, n)` is realizable), and each
  `[...].sort(() => Math.random() - 0.5)` call yields `shuffle k`, some
  reordering of the four directions (insertion sort with an arbitrary
  comparator can realize any permutation).  Theorems quantify over all
  oracles, so they cover every real execution.
* Stateful methods become explicit state-passing functions; `while` loops
  become fuel recursion with the fuel taken from the source's own bounds
  (5000 fill attempts, 10000 retries, `remaining.size` rounds) or, for the
  ray walks, from a bound on how long a ray can stay inside the grid.
* JS `Map` is modelled as an insertion-ordered list (`Map.set` replaces in
  place or appends; `Map.delete` erases; iteration follows that order).
* `this.grid[p.y][p.x] = id` in `addWorm` throws a `TypeError` when row
  `p.y` does not exist (out-of-bounds y); `addWorm` therefore returns a
  success flag and the partially mutated grid, mirroring the exception
  that `importLevel` catches.  A write with in-range y but out-of-range x
  sets a stray array property that no bounds-checked read ever sees, so it
  is modelled as a no-op.
-/

set_option maxHeartbeats 1000000

namespace ArrowPuzzle

/-- `Direction` from Grid.ts: UP=0, DOWN=1, LEFT=2, RIGHT=3. -/
inductive Dir where
  | UP
  | DOWN
  | LEFT
  | RIGHT
deriving DecidableEq

/-- `Point` from Grid.ts: an integer coordinate pair. -/
structure Point where
  x : Int
  y : Int
deriving DecidableEq

/-- One step of the `switch (dir)` blocks: UP=(0,-1), DOWN=(0,1), LEFT=(-1,0), RIGHT=(1,0). -/
def Dir.step : Dir → Point → Point
  | .UP, p => ⟨p.x, p.y - 1⟩
  | .DOWN, p => ⟨p.x, p.y + 1⟩
  | .LEFT, p => ⟨p.x - 1, p.y⟩
  | .RIGHT, p => ⟨p.x + 1, p.y⟩

/-- `Worm` from Grid.ts.  `cells[0]` is the head. -/
structure Worm where
  id : Int
  cells : List Point
  direction : Dir
  color : Int
deriving DecidableEq

/-- `worm.head`, i.e. `cells[0]`.  The source would crash on an empty
`cells`; every worm handled by the claims has nonempty cells, and the
default value only pads totality. -/
def Worm.headPt (w : Worm) : Point :=
  w.cells.headD ⟨0, 0⟩

/-- `LogicalGrid` from Grid.ts.  `grid[y][x]` is a worm id or `-1`. -/
structure LogicalGrid where
  width : Int
  height : Int
  worms : List Worm
  grid : List (List Int)
deriving DecidableEq

/-- `new LogicalGrid(width, height)`: an occupancy table of `-1`s.  (For
negative dimensions the source throws in `Array(height)`; the one caller
that can reach that path, `importLevel`, guards it explicitly below.) -/
def LogicalGrid.new (width height : Int) : LogicalGrid :=
  ⟨width, height, [], List.replicate height.toNat (List.replicate width.toNat (-1))⟩

/-- `isValid(x, y)`. -/
def LogicalGrid.isValid (g : LogicalGrid) (x y : Int) : Bool :=
  0 ≤ x && x < g.width && 0 ≤ y && y < g.height

/-- `getWormIdAt(x, y)`: bounds-checked occupancy read, `-1` when out of bounds. -/
def LogicalGrid.getWormIdAt (g : LogicalGrid) (x y : Int) : Int :=
  if 0 ≤ x && x < g.width && 0 ≤ y && y < g.height then
    (g.grid.getD y.toNat []).getD x.toNat (-1)
  else
    -1

/-- `isEmpty(x, y)`. -/
def LogicalGrid.isEmpty (g : LogicalGrid) (x y : Int) : Bool :=
  g.isValid x y && (g.grid.getD y.toNat []).getD x.toNat (-1) == -1

/-- One occupancy write `grid[y][x] = v`.  `none` models the `TypeError`
thrown when row `y` does not exist; an out-of-range `x` inside an existing
row sets an invisible stray property, i.e. is a no-op. -/
def writeCell (rows : List (List Int)) (x y v : Int) : Option (List (List Int)) :=
  if 0 ≤ y ∧ y.toNat < rows.length then
    some (rows.set y.toNat
      (if 0 ≤ x ∧ x.toNat < (rows.getD y.toNat []).length then
        (rows.getD y.toNat []).set x.toNat v
      else
        rows.getD y.toNat []))
  else
    none

/-- The cell-writing loop of `addWorm`: writes the worm id into each cell
in order, stopping (flag `false`) at the first row-missing throw. -/
def writeCells (rows : List (List Int)) (v : Int) : List Point → List (List Int) × Bool
  | [] => (rows, true)
  | p :: ps =>
    match writeCell rows p.x p.y v with
    | some rows' => writeCells rows' v ps
    | none => (rows, false)

/-- `Map.set(id, w)`: replace in place if the id is present, else append. -/
def setWorm (worms : List Worm) (w : Worm) : List Worm :=
  if worms.any (fun u => u.id == w.id) then
    worms.map (fun u => if u.id == w.id then w else u)
  else
    worms ++ [w]

/-- `addWorm(worm)`: registers the worm in the collection, then writes its
cells into the occupancy table.  The flag is `false` when a cell write
threw (worm already registered, earlier cells already written). -/
def LogicalGrid.addWorm (g : LogicalGrid) (w : Worm) : LogicalGrid × Bool :=
  let worms' := setWorm g.worms w
  let (rows', ok) := writeCells g.grid w.id w.cells
  ({ g with worms := worms', grid := rows' }, ok)

/-- `worms.get(id)`: first (and, for reachable grids, only) worm with the id. -/
def LogicalGrid.findWorm (g : LogicalGrid) (id : Int) : Option Worm :=
  g.worms.find? (fun w => w.id == id)

/-- The cell-clearing loop of `removeWorm`.  The source would throw on a
row-missing write exactly like `addWorm`; that path is unreachable for the
well-formed grids all removal theorems assume, so the model drops the
write instead. -/
def clearCells (rows : List (List Int)) : List Point → List (List Int)
  | [] => rows
  | p :: ps => clearCells ((writeCell rows p.x p.y (-1)).getD rows) ps

/-- `removeWorm(id)`: clears the worm's cells and deletes it from the
collection; a no-op when the id is absent. -/
def LogicalGrid.removeWorm (g : LogicalGrid) (id : Int) : LogicalGrid :=
  match g.findWorm id with
  | none => g
  | some w =>
      { g with grid := clearCells g.grid w.cells,
               worms := g.worms.filter (fun u => !(u.id == id)) }

/-! ## Ray walks

All three ray loops of GameManager.ts (`isBlockedBySet`, `checkSelfBlock`,
`getRaycastBlockers`) share one shape: step, exit on `!isValid`, exit on a
hit, else continue.  `rayFind` is that loop with fuel; `rayFuel` bounds how
many steps a ray can stay inside the grid from any start (the moving
coordinate changes by 1 per step and must remain inside `[0, bound)`), so
with `rayFuel` the fuel never runs out on the valid prefix. -/

/-- Fuel that dominates the length of any in-grid ray from `(x, y)`. -/
def rayFuel (g : LogicalGrid) (x y : Int) : Nat :=
  g.width.natAbs + g.height.natAbs + x.natAbs + y.natAbs + 2

/-- The shared ray loop: first position (after at least one step) that is
still in the grid and satisfies `hit`; `none` when the ray exits the grid
first. -/
def rayFind (g : LogicalGrid) (hit : Point → Bool) (d : Dir) : Point → Nat → Option Point
  | _, 0 => none
  | p, fuel + 1 =>
    let q := d.step p
    if g.isValid q.x q.y then
      if hit q then some q else rayFind g hit d q fuel
    else
      none

/-- The in-grid positions a ray visits, in order (the loop's footprint). -/
def rayCells (g : LogicalGrid) (d : Dir) : Point → Nat → List Point
  | _, 0 => []
  | p, fuel + 1 =>
    let q := d.step p
    if g.isValid q.x q.y then q :: rayCells g d q fuel else []

/-- `GameManager.checkSelfBlock(cells, dir)`: does the ray from `cells[0]`
re-enter one of `cells` before leaving the grid? -/
def checkSelfBlock (g : LogicalGrid) (cells : List Point) (d : Dir) : Bool :=
  let head := cells.headD ⟨0, 0⟩
  (rayFind g (fun q => cells.any (fun c => c.x == q.x && c.y == q.y)) d head
    (rayFuel g head.x head.y)).isSome

/-- `GameManager.isBlockedBySet(subject, potentialBlockers)`: the subject
is passed as its id, (tentative) head and (tentative) direction, the only
fields the source reads.  Cells owned by the subject itself or by ids
outside `remaining` are transparent. -/
def isBlockedBySet (g : LogicalGrid) (sid : Int) (head : Point) (d : Dir)
    (remaining : List Int) : Bool :=
  (rayFind g
    (fun q =>
      let id := g.getWormIdAt q.x q.y
      !(id == -1) && !(id == sid) && remaining.contains id)
    d head (rayFuel g head.x head.y)).isSome

/-- `GameManager.getRaycastBlockers(startX, startY, dir, skipId)`. -/
def getRaycastBlockers (g : LogicalGrid) (startX startY : Int) (d : Dir)
    (skipId : Int) : List Int :=
  match rayFind g
      (fun q =>
        let id := g.getWormIdAt q.x q.y
        !(id == -1) && !(id == skipId))
      d ⟨startX, startY⟩ (rayFuel g startX startY) with
  | some q => [g.getWormIdAt q.x q.y]
  | none => []

/-! ## GameManager state, removal, serialization -/

/-- A worm entry of the level snapshot (`{id, cells, dir, color}`).  The
serialized `dir` number is carried as the `Dir` it denotes; snapshots whose
`dir` is outside 0..3 are outside the model (the source would store the
raw number and later loop forever on it). -/
structure WormData where
  id : Int
  cells : List Point
  dir : Dir
  color : Int
deriving DecidableEq

/-- The parsed form of a level JSON object.  `none` models a missing
field; `JSON.parse` cannot distinguish `w: 0` from other falsy values, so
the truthiness test below treats `some 0` like `none`. -/
structure RawLevel where
  w : Option Int
  h : Option Int
  worms : Option (List WormData)
deriving DecidableEq

/-- The strings the manager stores or receives as level JSON: the empty
string (the initial `initialLevelJson`), a string `JSON.parse` rejects, or
a parseable object. -/
inductive JsonStr where
  | emptyStr
  | malformed
  | parsed (r : RawLevel)
deriving DecidableEq

/-- JS truthiness of an optional number field: missing and `0` are falsy. -/
def truthyInt : Option Int → Bool
  | none => false
  | some n => !(n == 0)

/-- `GameManager` state: dimensions, live grid, stored level snapshot. -/
structure GameManager where
  gridWidth : Int
  gridHeight : Int
  logicGrid : LogicalGrid
  initialLevelJson : JsonStr
deriving DecidableEq

/-- `new GameManager(width, height)`. -/
def GameManager.new (width height : Int) : GameManager :=
  ⟨width, height, LogicalGrid.new width height, .emptyStr⟩

/-- `reset()`. -/
def GameManager.reset (m : GameManager) : GameManager :=
  { m with logicGrid := LogicalGrid.new m.gridWidth m.gridHeight }

/-- `tryRemoveWorm(wormId)`: fail on an unknown id; otherwise remove the
worm iff the ray from its head, with its own id transparent, reaches the
wall. -/
def GameManager.tryRemoveWorm (m : GameManager) (wormId : Int) : GameManager × Bool :=
  match m.logicGrid.findWorm wormId with
  | none => (m, false)
  | some w =>
    let blockers := getRaycastBlockers m.logicGrid w.headPt.x w.headPt.y w.direction wormId
    if blockers.length == 0 then
      ({ m with logicGrid := m.logicGrid.removeWorm wormId }, true)
    else
      (m, false)

/-- `serializeLevel()`: `{v: 1, w, h, worms: [{id, cells, dir, color}]}`. -/
def GameManager.serializeLevel (m : GameManager) : RawLevel :=
  ⟨some m.gridWidth, some m.gridHeight,
    some (m.logicGrid.worms.map (fun w => ⟨w.id, w.cells, w.direction, w.color⟩))⟩

/-- `exportLevel()`. -/
def GameManager.exportLevel (m : GameManager) : JsonStr :=
  m.initialLevelJson

/-- The worm-adding loop of `importLevel`: builds `new Worm(id, color)`
with the data's cells and direction and `addWorm`s it; an `addWorm` throw
aborts with the partially mutated grid. -/
def importWorms (g : LogicalGrid) : List WormData → LogicalGrid × Bool
  | [] => (g, true)
  | wd :: rest =>
    match g.addWorm ⟨wd.id, wd.cells, wd.dir, wd.color⟩ with
    | (g', true) => importWorms g' rest
    | (g', false) => (g', false)

/-- `importLevel(json)`: parse, reject missing/falsy `w`/`h`/`worms`, then
overwrite the dimensions, reset the grid and re-add every worm.  Any throw
below the field check is caught with the mutations made so far kept (the
source's `try { ... } catch { return false; }`). -/
def GameManager.importLevel (m : GameManager) (json : JsonStr) : GameManager × Bool :=
  match json with
  | .emptyStr => (m, false)
  | .malformed => (m, false)
  | .parsed data =>
    if !truthyInt data.w || !truthyInt data.h || data.worms.isNone then
      (m, false)
    else
      let w := (data.w.getD 0)
      let h := (data.h.getD 0)
      let m1 := { m with gridWidth := w, gridHeight := h }
      if w < 0 ∨ h < 0 then
        (m1, false)
      else
        let m2 := m1.reset
        match importWorms m2.logicGrid (data.worms.getD []) with
        | (g', true) => ({ m2 with logicGrid := g', initialLevelJson := json }, true)
        | (g', false) => ({ m2 with logicGrid := g' }, false)

/-! ## Level generation -/

/-- The color palette (`PALETTE`, 16 entries). -/
def PALETTE : List Int :=
  [0xF87171, 0xFB923C, 0xFBBF24, 0xA3E635,
   0x34D399, 0x22D3EE, 0x60A5FA, 0xA78BFA,
   0xE879F9, 0xFB7185, 0x38BDF8, 0x4ADE80,
   0xFACC15, 0xF472B6, 0x67E8F9, 0xC084FC]

/-- Randomness source: `pick k` is the `k`-th `Math.floor(Math.random()*n)`
call (used modulo `n`), `shuffle k` the result of the `k`-th
`[...directions].sort(() => Math.random() - 0.5)` call. -/
structure Oracle where
  pick : Nat → Nat
  shuffle : Nat → List Dir

/-- The empty-cell scan of Phase 1 (y outer, x inner, so index `y*w + x`). -/
def emptyCellsList (g : LogicalGrid) : List Point :=
  (List.range g.height.toNat).flatMap (fun (y : Nat) =>
    (List.range g.width.toNat).filterMap (fun (x : Nat) =>
      if g.isEmpty (x : Int) (y : Int) then some ⟨(x : Int), (y : Int)⟩ else none))

/-- `countEmpty()`. -/
def GameManager.countEmpty (m : GameManager) : Nat :=
  ((List.range m.gridHeight.toNat).map (fun (y : Nat) =>
    ((List.range m.gridWidth.toNat).filter (fun (x : Nat) =>
      m.logicGrid.isEmpty (x : Int) (y : Int))).length)).sum

/-- The body-growing loop of Phase 1: for each remaining step, take the
first shuffled direction whose target is valid, empty and not already part
of this worm; stop early when none qualifies.  Returns the grown cell list
and the advanced shuffle counter. -/
def growWorm (g : LogicalGrid) (O : Oracle) :
    Nat → List Point → Point → Nat → List Point × Nat
  | 0, cells, _, sk => (cells, sk)
  | steps + 1, cells, cur, sk =>
    let dirs := O.shuffle sk
    match dirs.find? (fun d =>
        let q := d.step cur
        g.isValid q.x q.y && g.isEmpty q.x q.y &&
          !(cells.any (fun c => c.x == q.x && c.y == q.y))) with
    | some d => growWorm g O steps (cells ++ [d.step cur]) (d.step cur) (sk + 1)
    | none => (cells, sk + 1)

/-- The JS comparison `occupied / totalCells >= targetDensity`, carried
out exactly: for a positive total it is the cross-multiplied integer
comparison, and for `totalCells = 0` it is `false` (JS computes `NaN` and
every `NaN` comparison is `false`).  ℚ arithmetic itself is
`@[irreducible]` in this toolchain, so the division is phrased this way to
keep the model executable; `densityReached_iff` below proves it is the
same comparison. -/
def densityReached (occupied total : Int) (td : ℚ) : Bool :=
  total != 0 && decide (td.num * total ≤ occupied * (td.den : Int))

/-- The Phase 1 loop state: the grid being filled, the worm id counter and
the attempt counter, plus the two oracle counters. -/
structure FillState where
  grid : LogicalGrid
  nextId : Int
  attempts : Nat
  pk : Nat
  sk : Nat
deriving DecidableEq

/-- One-to-one image of the `while (fillAttempts < 5000)` fill loop; the
fuel equals `5000 - attempts`, so fuel 0 is exactly the attempt cap.
Each iteration recomputes the empty cells, exits on density target or
exhaustion, else grows a candidate worm of target length 5–8 from a random
empty start and commits it iff it reached 5 cells. -/
def fillLoop (td : ℚ) (O : Oracle) : FillState → Nat → FillState
  | st, 0 => st
  | st, fuel + 1 =>
    let st := { st with attempts := st.attempts + 1 }
    let ec := emptyCellsList st.grid
    let total : Int := st.grid.width * st.grid.height
    let occupied : Int := total - ec.length
    if densityReached occupied total td then st
    else if ec.length = 0 then st
    else
      let start := ec.getD (O.pick st.pk % ec.length) ⟨0, 0⟩
      let id := st.nextId
      let color := PALETTE.getD (O.pick (st.pk + 1) % PALETTE.length) 0
      let len := O.pick (st.pk + 2) % 4 + 5
      let (cells, sk') := growWorm st.grid O (len - 1) [start] start st.sk
      let st' := { st with nextId := id + 1, pk := st.pk + 3, sk := sk' }
      if cells.length < 5 then fillLoop td O st' fuel
      else
        fillLoop td O
          { st' with grid := (st.grid.addWorm ⟨id, cells, .UP, color⟩).1 } fuel

/-! ## Phase 2: topological direction assignment -/

/-- One recorded `{id, dir, reverse}` commitment of Phase 2. -/
structure Assignment where
  id : Int
  dir : Dir
  reverse : Bool
deriving DecidableEq

/-- The inner direction trial of one orientation: the first shuffled
direction that neither self-blocks nor is blocked by a still-remaining
worm.  (The source mutates `worm.cells`/`worm.direction` while testing and
restores/overwrites them; occupancy never changes, so the test is the pure
function of the oriented cells, the grid and `remaining` modelled here.) -/
def tryDirs (g : LogicalGrid) (id : Int) (cells : List Point) (dirs : List Dir)
    (remaining : List Int) : Option Dir :=
  dirs.find? (fun d =>
    !checkSelfBlock g cells d &&
      !isBlockedBySet g id (cells.headD ⟨0, 0⟩) d remaining)

/-- The `for (const id of remaining)` scan of one round: try each worm in
order, orientation original-then-reversed, one direction shuffle per
orientation; return the first commitment found and the advanced shuffle
counter. -/
def findFreeWorm (g : LogicalGrid) (remaining : List Int) (O : Oracle) :
    List Int → Nat → Option Assignment × Nat
  | [], sk => (none, sk)
  | id :: rest, sk =>
    match g.findWorm id with
    | none => findFreeWorm g remaining O rest sk
    | some w =>
      match tryDirs g id w.cells (O.shuffle sk) remaining with
      | some d => (some ⟨id, d, false⟩, sk + 1)
      | none =>
        match tryDirs g id w.cells.reverse (O.shuffle (sk + 1)) remaining with
        | some d => (some ⟨id, d, true⟩, sk + 2)
        | none => findFreeWorm g remaining O rest (sk + 2)

/-- The `while (remaining.size > 0)` peel loop.  The fuel starts at
`remaining.length`; each successful round deletes the committed id, so the
fuel suffices exactly.  `none` is the "no worm has any way out" failure. -/
def peelLoop (g : LogicalGrid) (O : Oracle) :
    List Int → Nat → Nat → Option (List Assignment) × Nat
  | [], sk, _ => (some [], sk)
  | _ :: _, sk, 0 => (none, sk)
  | remaining@(_ :: _), sk, fuel + 1 =>
    match findFreeWorm g remaining O remaining sk with
    | (none, sk') => (none, sk')
    | (some a, sk') =>
      match peelLoop g O (remaining.erase a.id) sk' fuel with
      | (some asgs, sk'') => (some (a :: asgs), sk'')
      | (none, sk'') => (none, sk'')

/-- The final application loop of Phase 2: for each recorded assignment,
reverse the worm's cells if flagged and set its direction. -/
def applyAssignments (g : LogicalGrid) (asgs : List Assignment) : LogicalGrid :=
  asgs.foldl (fun g a =>
    { g with worms := g.worms.map (fun w =>
        if w.id == a.id then
          { w with cells := if a.reverse then w.cells.reverse else w.cells,
                   direction := a.dir }
        else w) }) g

/-- `assignDirectionsTopologically()`: peel over the current worm-id set;
on success apply the assignments.  Also returns the commitment list (the
algorithm's internal order, which claims C1/C2 are about) and the advanced
shuffle counter. -/
def assignDirectionsTopologically (g : LogicalGrid) (O : Oracle) (sk : Nat) :
    LogicalGrid × Bool × List Assignment × Nat :=
  let ids := g.worms.map (·.id)
  match peelLoop g O ids sk ids.length with
  | (some asgs, sk') => (applyAssignments g asgs, true, asgs, sk')
  | (none, sk') => (g, false, [], sk')

/-! ## generateLevel -/

/-- The observable outcome of `generateLevel`, with the successful
iteration's assignment order and fill-attempt count exposed (internal
state the claims explicitly refer to). -/
structure GenResult where
  manager : GameManager
  ok : Bool
  asgs : List Assignment
  fillAttempts : Nat
deriving DecidableEq

/-- The `for (retry …)` loop of `generateLevel`: reset, fill, peel;
on peel success reject a worm-count shortfall, else snapshot and return
`true`.  Fuel is the source's `maxRetries = 10000`. -/
def genLoop (td : ℚ) (minWormCount : Nat) (O : Oracle) :
    GameManager → Nat → Nat → Nat → GenResult
  | m, _, _, 0 => ⟨m, false, [], 0⟩
  | m, pk, sk, fuel + 1 =>
    let m := m.reset
    let st := fillLoop td O ⟨m.logicGrid, 0, 0, pk, sk⟩ 5000
    let (g', ok, asgs, sk') := assignDirectionsTopologically st.grid O st.sk
    let m := { m with logicGrid := g' }
    if ok then
      if minWormCount > 0 ∧ m.logicGrid.worms.length < minWormCount then
        genLoop td minWormCount O m st.pk sk' fuel
      else
        (⟨{ m with initialLevelJson := .parsed m.serializeLevel }, true, asgs, st.attempts⟩)
    else
      genLoop td minWormCount O m st.pk sk' fuel

/-- `generateLevel(targetDensity, minWormCount)` with the internal log. -/
def GameManager.generateLevelAux (m : GameManager) (td : ℚ) (minWormCount : Nat)
    (O : Oracle) : GenResult :=
  genLoop td minWormCount O m 0 0 10000

/-- `generateLevel(targetDensity, minWormCount)`. -/
def GameManager.generateLevel (m : GameManager) (td : ℚ) (minWormCount : Nat)
    (O : Oracle) : GameManager × Bool :=
  let r := m.generateLevelAux td minWormCount O
  (r.manager, r.ok)

/-- Replay a sequence of `tryRemoveWorm` calls; the flag is `true` iff
every single call returned `true`. -/
def removeAll (m : GameManager) : List Int → GameManager × Bool
  | [] => (m, true)
  | id :: rest =>
    let (m', ok) := m.tryRemoveWorm id
    let (m'', okRest) := removeAll m' rest
    (m'', ok && okRest)

/-! ## Specification-level definitions -/

/-- The ids of the live worms, in collection order. -/
def idsOf (g : LogicalGrid) : List Int :=
  g.worms.map (·.id)

/-- The ids of the worms whose `cells` contain `p`. -/
def ownersAt (g : LogicalGrid) (p : Point) : List Int :=
  (g.worms.filter (fun w => w.cells.any (fun c => c.x == p.x && c.y == p.y))).map (·.id)

/-- Well-formedness of a grid: the occupancy table has the advertised
shape, worm ids are nonnegative and pairwise distinct, every worm has a
nonempty in-bounds body, and the occupancy table at each cell names
exactly the worm whose body covers it (`-1` when none does).  This is the
spec's Grid invariant (§3 "Grid"). -/
def GridWF (g : LogicalGrid) : Prop :=
  g.grid.length = g.height.toNat
  ∧ (∀ j ∈ List.range g.height.toNat, (g.grid.getD j []).length = g.width.toNat)
  ∧ 0 ≤ g.width ∧ 0 ≤ g.height
  ∧ (idsOf g).Nodup
  ∧ (∀ w ∈ g.worms, 0 ≤ w.id ∧ w.cells ≠ [] ∧ ∀ p ∈ w.cells, g.isValid p.x p.y = true)
  ∧ (∀ y ∈ List.range g.height.toNat, ∀ x ∈ List.range g.width.toNat,
      ownersAt g ⟨x, y⟩ = [g.getWormIdAt x y]
        ∨ (ownersAt g ⟨x, y⟩ = [] ∧ g.getWormIdAt x y = -1))

instance (g : LogicalGrid) : Decidable (GridWF g) := by
  unfold GridWF
  infer_instance

/-- The precondition of `addWorm` under which the occupancy invariant is
preserved: a fresh nonnegative id, a nonempty body, and (the claim's
condition) every body cell currently empty — which also forces the cells
in bounds, since out-of-bounds cells are never "empty". -/
def AddPre (g : LogicalGrid) (w : Worm) : Prop :=
  0 ≤ w.id ∧ w.id ∉ idsOf g ∧ w.cells ≠ [] ∧ ∀ p ∈ w.cells, g.isEmpty p.x p.y = true

instance (g : LogicalGrid) (w : Worm) : Decidable (AddPre g w) := by
  unfold AddPre
  infer_instance

/-- The grids reachable from an empty grid by `addWorm` calls satisfying
`AddPre` and arbitrary `removeWorm` calls (claim C4's state space). -/
inductive ReachableGrid : LogicalGrid → Prop where
  | init (w h : Int) (hw : 0 ≤ w) (hh : 0 ≤ h) : ReachableGrid (LogicalGrid.new w h)
  | add (g : LogicalGrid) (w : Worm) : ReachableGrid g → AddPre g w →
      ReachableGrid (g.addWorm w).1
  | remove (g : LogicalGrid) (id : Int) : ReachableGrid g →
      ReachableGrid (g.removeWorm id)

/-- The `k`-th position of the ray from `start` in direction `d`. -/
def rayPos (start : Point) (d : Dir) : Nat → Point
  | 0 => start
  | k + 1 => d.step (rayPos start d k)

/-- The mathematical reading of "the ray from `start` in direction `d`
reaches the grid boundary without hitting a worm other than `skip`":
every ray position that is still inside the grid (all earlier positions
inside as well) holds `-1` or the transparent id. -/
def ClearRay (g : LogicalGrid) (start : Point) (d : Dir) (skip : Int) : Prop :=
  ∀ k : Nat, 1 ≤ k →
    (∀ j : Nat, 1 ≤ j → j ≤ k →
      g.isValid (rayPos start d j).x (rayPos start d j).y = true) →
    g.getWormIdAt (rayPos start d k).x (rayPos start d k).y = -1
      ∨ g.getWormIdAt (rayPos start d k).x (rayPos start d k).y = skip

/-- The mathematical reading of "the ray from the head never re-enters the
worm's own body before leaving the grid" (claim C7). -/
def SelfClearRay (g : LogicalGrid) (cells : List Point) (d : Dir) : Prop :=
  ∀ k : Nat, 1 ≤ k →
    (∀ j : Nat, 1 ≤ j → j ≤ k →
      g.isValid (rayPos (cells.headD ⟨0, 0⟩) d j).x (rayPos (cells.headD ⟨0, 0⟩) d j).y = true) →
    rayPos (cells.headD ⟨0, 0⟩) d k ∉ cells

/-- The oriented body a commitment `{id, dir, reverse}` was tested with. -/
def orientCells (w : Worm) (reverse : Bool) : List Point :=
  if reverse then w.cells.reverse else w.cells

/-- Characterization of a successful peel run over the original grid `g`:
each commitment, at its turn, passed the self-block check and the
blocked-by-`remaining` check, and its id was deleted from `remaining`. -/
inductive Peeled (g : LogicalGrid) : List Int → List Assignment → Prop where
  | nil : Peeled g [] []
  | cons (remaining : List Int) (a : Assignment) (w : Worm) (rest : List Assignment) :
      a.id ∈ remaining →
      g.findWorm a.id = some w →
      checkSelfBlock g (orientCells w a.reverse) a.dir = false →
      isBlockedBySet g a.id ((orientCells w a.reverse).headD ⟨0, 0⟩) a.dir remaining = false →
      Peeled g (remaining.erase a.id) rest →
      Peeled g remaining (a :: rest)

/-- The peel facts transported to the post-application grid `gA`: the
committed worm now carries its oriented cells and final direction, and its
ray is clear of every still-`remaining` worm. -/
inductive PeeledA (gA : LogicalGrid) : List Int → List Assignment → Prop where
  | nil : PeeledA gA [] []
  | cons (remaining : List Int) (a : Assignment) (w : Worm) (rest : List Assignment) :
      a.id ∈ remaining →
      gA.findWorm a.id = some w →
      w.direction = a.dir →
      isBlockedBySet gA a.id w.headPt a.dir remaining = false →
      PeeledA gA (remaining.erase a.id) rest →
      PeeledA gA remaining (a :: rest)

/-- `gCur` is `gFull` with every worm outside `remaining` removed: same
dimensions, the worm collection filtered to `remaining`, and every
occupancy cell kept iff its owner is still in `remaining`. -/
def restrictedTo (gFull gCur : LogicalGrid) (remaining : List Int) : Prop :=
  gCur.width = gFull.width ∧ gCur.height = gFull.height ∧
  gCur.worms = gFull.worms.filter (fun w => decide (w.id ∈ remaining)) ∧
  ∀ x y : Int, gCur.getWormIdAt x y =
    (if gFull.getWormIdAt x y ∈ remaining then gFull.getWormIdAt x y else -1)

/-- The number of occupied cells of the live grid (`totalCells - countEmpty`). -/
def GameManager.occupiedCells (m : GameManager) : Int :=
  m.gridWidth * m.gridHeight - m.countEmpty

/-! ## Concrete instances used as witnesses and counterexamples -/

/-- The default target density `0.95`, as an evaluable rational literal
(`q95_eq_scientific` identifies it with the `0.95` numeral). -/
def q95 : ℚ :=
  ⟨19, 20, by decide, by decide⟩

/-- A deterministic oracle for a 1×5 grid: the fill walk always prefers
DOWN, Phase 2 shuffles put UP first; every pick takes index 0.  (Both
shuffle outputs are permutations of the four directions, hence reachable
outcomes of `sort(() => Math.random() - 0.5)`; constant picks correspond to
`Math.random()` small enough each call.) -/
def O15 : Oracle :=
  ⟨fun _ => 0, fun k => if k < 4 then [.DOWN, .UP, .LEFT, .RIGHT] else [.UP, .DOWN, .LEFT, .RIGHT]⟩

/-- The 1×5 generation run used by several witnesses. -/
def R15 : GenResult :=
  (GameManager.new 1 5).generateLevelAux q95 0 O15

/-- Oracle for the 1×10 two-worm run refuting C2: fill builds two vertical
worms (cells (0,0)–(0,4) and (0,5)–(0,9)), Phase 2 assigns both UP, lower
worm committed second because the upper one frees first. -/
def O2ce : Oracle :=
  ⟨fun _ => 0, fun k => if k < 8 then [.DOWN, .UP, .LEFT, .RIGHT] else [.UP, .DOWN, .LEFT, .RIGHT]⟩

/-- The 1×10 generation run refuting C2. -/
def R2ce : GenResult :=
  (GameManager.new 1 10).generateLevelAux q95 0 O2ce

/-- A trivial oracle (no choice is ever consulted on a 0×0 grid). -/
def O0ce : Oracle :=
  ⟨fun _ => 0, fun _ => []⟩

/-- The 0×0 generation run refuting C6: generation succeeds vacuously, but
the exported snapshot has `w = 0`, which `importLevel`'s falsy-field check
rejects. -/
def R6ce : GenResult :=
  (GameManager.new 0 0).generateLevelAux q95 0 O0ce

/-- The spec §8 example grid: a 1×2 board fully covered by one 2-cell
worm whose head is the top cell, pointing UP. -/
def gC3 : LogicalGrid :=
  ⟨1, 2, [⟨0, [⟨0, 0⟩, ⟨0, 1⟩], .UP, 7⟩], [[0], [0]]⟩

/-- A manager holding `gC3`. -/
def mC3 : GameManager :=
  ⟨1, 2, gC3, .emptyStr⟩

/-- The structurally parseable but malformed snapshot refuting C5: valid
`w`/`h`/`worms` fields, one worm with an out-of-bounds cell `(0, 5)` on
the claimed 2×2 grid, so the `addWorm` write throws after the dimensions
were already overwritten. -/
def jC5 : JsonStr :=
  .parsed ⟨some 2, some 2, some [⟨0, [⟨0, 5⟩], .UP, 0⟩]⟩

/-- Oracle for the 25×35 run refuting C8: the first two fill iterations
place two 6-cell worms walling off the corner cell (0,0) (starts (0,1) and
(1,0), walks going RIGHT); every later iteration starts at the trapped
(0,0), gets stuck at 1 cell and is discarded, burning all 5000 attempts at
density 12/875.  Phase 2 then succeeds (both worms exit UP), so
`generateLevel(0.95, 0)` returns `true` on an almost-empty board. -/
def O8ce : Oracle :=
  ⟨fun k => if k < 3 then 25 else if k < 6 then 1 else 0,
   fun _ => [.RIGHT, .UP, .LEFT, .DOWN]⟩

/-- The fill state after the two worm-placing iterations of `O8ce`. -/
def st8 : FillState :=
  fillLoop q95 O8ce ⟨LogicalGrid.new 25 35, 0, 0, 0, 0⟩ 2

/-- The small grid (two worms, 12 cells) that `O8ce`'s fill phase is stuck
on for the remaining 4998 attempts. -/
def g8 : LogicalGrid :=
  st8.grid

/-- Raw occupancy-table read (the in-bounds branch of `getWormIdAt`). -/
def readAt (rows : List (List Int)) (x y : Int) : Int :=
  (rows.getD y.toNat []).getD x.toNat (-1)

/-- In-bounds, as a proposition over the dimensions. -/
def cellInB (w h : Int) (p : Point) : Prop :=
  0 ≤ p.x ∧ p.x < w ∧ 0 ≤ p.y ∧ p.y < h

instance (w h : Int) (p : Point) : Decidable (cellInB w h p) := by
  unfold cellInB
  infer_instance

/-! # Lemmas and theorems -/

/-! ## Small helpers -/

theorem getD_set_general {α : Type} (l : List α) (i j : Nat) (a d : α) :
    (l.set i a).getD j d = if i = j ∧ i < l.length then a else l.getD j d := by
  rw [List.getD_eq_getElem?_getD, List.getD_eq_getElem?_getD, List.getElem?_set]
  by_cases hij : i = j
  · subst hij
    by_cases hlen : i < l.length
    · rw [if_pos rfl, if_pos hlen, if_pos ⟨rfl, hlen⟩]
      rfl
    · rw [if_pos rfl, if_neg hlen, if_neg (by tauto)]
      rw [List.getElem?_eq_none (by omega)]
  · rw [if_neg hij, if_neg (by tauto)]

theorem writeCell_none (rows : List (List Int)) (x y v : Int)
    (h : ¬(0 ≤ y ∧ y.toNat < rows.length)) : writeCell rows x y v = none := by
  unfold writeCell
  rw [if_neg h]

theorem writeCell_some (rows : List (List Int)) (x y v : Int)
    (hy : 0 ≤ y) (hlt : y.toNat < rows.length) :
    writeCell rows x y v =
      some (rows.set y.toNat
        (if 0 ≤ x ∧ x.toNat < (rows.getD y.toNat []).length then
          (rows.getD y.toNat []).set x.toNat v
        else rows.getD y.toNat [])) := by
  unfold writeCell
  rw [if_pos ⟨hy, hlt⟩]

theorem writeCell_spec (rows rows' : List (List Int)) (x y v : Int)
    (h : writeCell rows x y v = some rows') :
    rows'.length = rows.length ∧
    (∀ j : Nat, (rows'.getD j []).length = (rows.getD j []).length) ∧
    ∀ x' y' : Int, readAt rows' x' y' =
      if y'.toNat = y.toNat ∧ x'.toNat = x.toNat ∧ 0 ≤ x ∧
          x.toNat < (rows.getD y.toNat []).length then v
      else readAt rows x' y' := by
  by_cases hb : 0 ≤ y ∧ y.toNat < rows.length
  · rw [writeCell_some rows x y v hb.1 hb.2] at h
    injection h with h
    subst h
    refine ⟨List.length_set .., ?_, ?_⟩
    · intro j
      rw [getD_set_general]
      split
      · rename_i hj
        rw [← hj.1]
        split
        · rw [List.length_set]
        · rfl
      · rfl
    · intro x' y'
      unfold readAt
      rw [getD_set_general]
      by_cases hyy : y.toNat = y'.toNat ∧ y.toNat < rows.length
      · rw [if_pos hyy, ← hyy.1]
        by_cases hx : 0 ≤ x ∧ x.toNat < (rows.getD y.toNat []).length
        · rw [if_pos hx, getD_set_general]
          by_cases hxx : x.toNat = x'.toNat ∧ x.toNat < (rows.getD y.toNat []).length
          · rw [if_pos hxx, if_pos ⟨rfl, hxx.1.symm, hx.1, hx.2⟩]
          · rw [if_neg hxx, if_neg (by tauto)]
        · rw [if_neg hx, if_neg (by tauto)]
      · rw [if_neg hyy]
        rw [if_neg (by
          rintro ⟨h1, _, _, h4⟩
          exact hyy ⟨h1.symm, hb.2⟩)]
  · rw [writeCell_none rows x y v hb] at h
    exact absurd h (by simp)

/-- One step of the pointwise-read bookkeeping shared by the write and
clear loops: combining the single-cell write effect with the inductive
hypothesis for the remaining cells. -/
theorem step_read (v : Int) (p : Point) (ps : List Point)
    (rows rows' : List (List Int)) (R : List (List Int))
    (hy0 : 0 ≤ p.y)
    (hx : 0 ≤ p.x) (hxlt : p.x.toNat < (rows.getD p.y.toNat []).length)
    (hread : ∀ x' y' : Int, readAt rows' x' y' =
      if y'.toNat = p.y.toNat ∧ x'.toNat = p.x.toNat ∧ 0 ≤ p.x ∧
          p.x.toNat < (rows.getD p.y.toNat []).length then v
      else readAt rows x' y')
    (hread2 : ∀ x' y' : Int, 0 ≤ x' → 0 ≤ y' →
      readAt R x' y' = if (⟨x', y'⟩ : Point) ∈ ps then v else readAt rows' x' y')
    (x' y' : Int) (hx' : 0 ≤ x') (hy' : 0 ≤ y') :
    readAt R x' y' = if (⟨x', y'⟩ : Point) ∈ p :: ps then v else readAt rows x' y' := by
  rw [hread2 x' y' hx' hy', hread x' y']
  by_cases hmem : (⟨x', y'⟩ : Point) ∈ ps
  · have hm2 : (⟨x', y'⟩ : Point) ∈ p :: ps := List.mem_cons_of_mem p hmem
    rw [if_pos hmem, if_pos hm2]
  · rw [if_neg hmem]
    by_cases heq : (⟨x', y'⟩ : Point) = p
    · have hxeq : x' = p.x := congrArg Point.x heq
      have hyeq : y' = p.y := congrArg Point.y heq
      have hm2 : (⟨x', y'⟩ : Point) ∈ p :: ps := by
        rw [heq]
        exact List.mem_cons_self p ps
      have hcond : y'.toNat = p.y.toNat ∧ x'.toNat = p.x.toNat ∧ 0 ≤ p.x ∧
          p.x.toNat < (rows.getD p.y.toNat []).length := ⟨by rw [hyeq], by rw [hxeq], hx, hxlt⟩
      rw [if_pos hm2, if_pos hcond]
    · have hm2 : (⟨x', y'⟩ : Point) ∉ p :: ps := by
        intro hc
        rcases List.mem_cons.mp hc with hc | hc
        · exact heq hc
        · exact hmem hc
      have hcond : ¬(y'.toNat = p.y.toNat ∧ x'.toNat = p.x.toNat ∧ 0 ≤ p.x ∧
          p.x.toNat < (rows.getD p.y.toNat []).length) := by
        rintro ⟨h1, h2, h3, h4⟩
        apply heq
        have hxe : x' = p.x := by omega
        have hye : y' = p.y := by omega
        cases p
        simp_all
      rw [if_neg hm2, if_neg hcond]

/-- Effect of the `addWorm` write loop when every cell's row exists:
success flag, unchanged shape, and pointwise reads. -/
theorem writeCells_spec (v : Int) :
    ∀ (cells : List Point) (rows : List (List Int)),
      (∀ p ∈ cells, 0 ≤ p.y ∧ p.y.toNat < rows.length ∧ 0 ≤ p.x ∧
        p.x.toNat < (rows.getD p.y.toNat []).length) →
      (writeCells rows v cells).2 = true ∧
      (writeCells rows v cells).1.length = rows.length ∧
      (∀ j : Nat, ((writeCells rows v cells).1.getD j []).length = (rows.getD j []).length) ∧
      ∀ x' y' : Int, 0 ≤ x' → 0 ≤ y' →
        readAt (writeCells rows v cells).1 x' y' =
          if (⟨x', y'⟩ : Point) ∈ cells then v else readAt rows x' y' := by
  intro cells
  induction cells with
  | nil =>
    intro rows _
    exact ⟨rfl, rfl, fun _ => rfl, fun x' y' _ _ => by simp [writeCells]⟩
  | cons p ps ih =>
    intro rows hcells
    obtain ⟨hy, hylt, hx, hxlt⟩ := hcells p (by simp)
    obtain ⟨rows', hw⟩ : ∃ rows', writeCell rows p.x p.y v = some rows' :=
      ⟨_, writeCell_some rows p.x p.y v hy hylt⟩
    obtain ⟨hlen, hrowlen, hread⟩ := writeCell_spec rows rows' p.x p.y v hw
    have hps : ∀ q ∈ ps, 0 ≤ q.y ∧ q.y.toNat < rows'.length ∧ 0 ≤ q.x ∧
        q.x.toNat < (rows'.getD q.y.toNat []).length := by
      intro q hq
      obtain ⟨h1, h2, h3, h4⟩ := hcells q (by simp [hq])
      exact ⟨h1, by rw [hlen]; exact h2, h3, by rw [hrowlen]; exact h4⟩
    obtain ⟨ok', hlen', hrowlen', hread'⟩ := ih rows' hps
    have hstep : writeCells rows v (p :: ps) = writeCells rows' v ps := by
      show (match writeCell rows p.x p.y v with
            | some r => writeCells r v ps
            | none => (rows, false)) = writeCells rows' v ps
      rw [hw]
    rw [hstep]
    exact ⟨ok', by rw [hlen', hlen], fun j => by rw [hrowlen' j, hrowlen j],
      step_read v p ps rows rows' (writeCells rows' v ps).1 hy hx hxlt hread hread'⟩

/-- Effect of the `removeWorm` clear loop when every cell's row exists. -/
theorem clearCells_spec :
    ∀ (cells : List Point) (rows : List (List Int)),
      (∀ p ∈ cells, 0 ≤ p.y ∧ p.y.toNat < rows.length ∧ 0 ≤ p.x ∧
        p.x.toNat < (rows.getD p.y.toNat []).length) →
      (clearCells rows cells).length = rows.length ∧
      (∀ j : Nat, ((clearCells rows cells).getD j []).length = (rows.getD j []).length) ∧
      ∀ x' y' : Int, 0 ≤ x' → 0 ≤ y' →
        readAt (clearCells rows cells) x' y' =
          if (⟨x', y'⟩ : Point) ∈ cells then -1 else readAt rows x' y' := by
  intro cells
  induction cells with
  | nil =>
    intro rows _
    exact ⟨rfl, fun _ => rfl, fun x' y' _ _ => by simp [clearCells]⟩
  | cons p ps ih =>
    intro rows hcells
    obtain ⟨hy, hylt, hx, hxlt⟩ := hcells p (by simp)
    obtain ⟨rows', hw⟩ : ∃ rows', writeCell rows p.x p.y (-1) = some rows' :=
      ⟨_, writeCell_some rows p.x p.y (-1) hy hylt⟩
    obtain ⟨hlen, hrowlen, hread⟩ := writeCell_spec rows rows' p.x p.y (-1) hw
    have hps : ∀ q ∈ ps, 0 ≤ q.y ∧ q.y.toNat < rows'.length ∧ 0 ≤ q.x ∧
        q.x.toNat < (rows'.getD q.y.toNat []).length := by
      intro q hq
      obtain ⟨h1, h2, h3, h4⟩ := hcells q (by simp [hq])
      exact ⟨h1, by rw [hlen]; exact h2, h3, by rw [hrowlen]; exact h4⟩
    obtain ⟨hlen', hrowlen', hread'⟩ := ih rows' hps
    have hstep : clearCells rows (p :: ps) = clearCells rows' ps := by
      show clearCells ((writeCell rows p.x p.y (-1)).getD rows) ps = clearCells rows' ps
      rw [hw]
      rfl
    rw [hstep]
    exact ⟨by rw [hlen', hlen], fun j => by rw [hrowlen' j, hrowlen j],
      step_read (-1) p ps rows rows' (clearCells rows' ps) hy hx hxlt hread hread'⟩

theorem point_any_iff (cells : List Point) (p : Point) :
    (cells.any (fun c => c.x == p.x && c.y == p.y) = true) ↔ p ∈ cells := by
  simp only [List.any_eq_true, Bool.and_eq_true, beq_iff_eq]
  constructor
  · rintro ⟨c, hc, hx, hy⟩
    have : c = p := by
      cases c; cases p; simp_all
    exact this ▸ hc
  · intro hp
    exact ⟨p, hp, rfl, rfl⟩

theorem isValid_iff (g : LogicalGrid) (x y : Int) :
    g.isValid x y = true ↔ cellInB g.width g.height ⟨x, y⟩ := by
  unfold LogicalGrid.isValid cellInB
  simp only [Bool.and_eq_true, decide_eq_true_eq]
  tauto

theorem cellInB_mk (w h x y : Int) :
    cellInB w h ⟨x, y⟩ ↔ 0 ≤ x ∧ x < w ∧ 0 ≤ y ∧ y < h :=
  Iff.rfl

theorem getWormIdAt_inb (g : LogicalGrid) (x y : Int)
    (h : cellInB g.width g.height ⟨x, y⟩) : g.getWormIdAt x y = readAt g.grid x y := by
  rw [cellInB_mk] at h
  unfold LogicalGrid.getWormIdAt readAt
  rw [if_pos (by simp only [Bool.and_eq_true, decide_eq_true_eq]; tauto)]

theorem getWormIdAt_oob (g : LogicalGrid) (x y : Int)
    (h : ¬cellInB g.width g.height ⟨x, y⟩) : g.getWormIdAt x y = -1 := by
  unfold LogicalGrid.getWormIdAt
  rw [if_neg (by
    rw [cellInB_mk] at h
    simp only [Bool.and_eq_true, decide_eq_true_eq]
    tauto)]

theorem isEmpty_iff (g : LogicalGrid) (x y : Int) :
    g.isEmpty x y = true ↔ cellInB g.width g.height ⟨x, y⟩ ∧ readAt g.grid x y = -1 := by
  unfold LogicalGrid.isEmpty readAt
  rw [Bool.and_eq_true, isValid_iff]
  simp only [beq_iff_eq]

theorem mem_ownersAt (g : LogicalGrid) (p : Point) (i : Int) :
    i ∈ ownersAt g p ↔ ∃ u ∈ g.worms, u.id = i ∧ p ∈ u.cells := by
  unfold ownersAt
  simp only [List.mem_map, List.mem_filter]
  constructor
  · rintro ⟨u, ⟨hu, hany⟩, hid⟩
    exact ⟨u, hu, hid, (point_any_iff u.cells p).mp hany⟩
  · rintro ⟨u, hu, hid, hp⟩
    exact ⟨u, ⟨hu, (point_any_iff u.cells p).mpr hp⟩, hid⟩

/-- For an in-bounds cell, the occupancy correspondence of `GridWF`,
restated over `Int` coordinates. -/
theorem gridWF_corr (g : LogicalGrid) (hWF : GridWF g) (x y : Int)
    (h : cellInB g.width g.height ⟨x, y⟩) :
    ownersAt g ⟨x, y⟩ = [g.getWormIdAt x y]
      ∨ (ownersAt g ⟨x, y⟩ = [] ∧ g.getWormIdAt x y = -1) := by
  obtain ⟨_, _, _, _, _, _, hcorr⟩ := hWF
  rw [cellInB_mk] at h
  obtain ⟨h1, h2, h3, h4⟩ := h
  have hx : x.toNat ∈ List.range g.width.toNat := List.mem_range.mpr (by omega)
  have hy : y.toNat ∈ List.range g.height.toNat := List.mem_range.mpr (by omega)
  have hc := hcorr y.toNat hy x.toNat hx
  have hxx : (x.toNat : Int) = x := by omega
  have hyy : (y.toNat : Int) = y := by omega
  rw [hxx, hyy] at hc
  exact hc

theorem gridWF_ids_nonneg (g : LogicalGrid) (hWF : GridWF g) (i : Int) (p : Point)
    (h : i ∈ ownersAt g p) : 0 ≤ i := by
  obtain ⟨u, hu, hid, _⟩ := (mem_ownersAt g p i).mp h
  obtain ⟨h6, _⟩ := (hWF.2.2.2.2.2.1 u hu)
  omega

/-- A worm's body cell reads back the worm's id. -/
theorem gridWF_read_of_mem (g : LogicalGrid) (hWF : GridWF g) (w : Worm)
    (hw : w ∈ g.worms) (p : Point) (hp : p ∈ w.cells) :
    g.getWormIdAt p.x p.y = w.id := by
  have hinb : cellInB g.width g.height p := by
    have := (hWF.2.2.2.2.2.1 w hw).2.2 p hp
    have h2 := (isValid_iff g p.x p.y).mp this
    cases p
    exact h2
  have hmem : w.id ∈ ownersAt g ⟨p.x, p.y⟩ := by
    apply (mem_ownersAt g ⟨p.x, p.y⟩ w.id).mpr
    refine ⟨w, hw, rfl, ?_⟩
    cases p
    exact hp
  rcases gridWF_corr g hWF p.x p.y (by cases p; exact hinb) with hc | hc
  · rw [hc] at hmem
    simp only [List.mem_singleton] at hmem
    omega
  · rw [hc.1] at hmem
    simp at hmem

/-- A cell covered by no worm reads `-1`. -/
theorem gridWF_read_empty (g : LogicalGrid) (hWF : GridWF g) (p : Point)
    (h : ∀ u ∈ g.worms, p ∉ u.cells) : g.getWormIdAt p.x p.y = -1 := by
  by_cases hinb : cellInB g.width g.height ⟨p.x, p.y⟩
  · rcases gridWF_corr g hWF p.x p.y hinb with hc | hc
    · exfalso
      have : g.getWormIdAt p.x p.y ∈ ownersAt g ⟨p.x, p.y⟩ := by
        rw [hc]
        exact List.mem_singleton_self _
      obtain ⟨u, hu, hid, hp⟩ := (mem_ownersAt _ _ _).mp this
      exact h u hu (by cases p; exact hp)
    · exact hc.2
  · exact getWormIdAt_oob g p.x p.y hinb

/-- Two worms sharing a cell are the same worm. -/
theorem gridWF_disjoint (g : LogicalGrid) (hWF : GridWF g) (w1 w2 : Worm)
    (h1 : w1 ∈ g.worms) (h2 : w2 ∈ g.worms) (p : Point)
    (hp1 : p ∈ w1.cells) (hp2 : p ∈ w2.cells) : w1 = w2 := by
  have hinb : cellInB g.width g.height p := by
    have := (hWF.2.2.2.2.2.1 w1 h1).2.2 p hp1
    have h3 := (isValid_iff g p.x p.y).mp this
    cases p
    exact h3
  have hm1 : w1.id ∈ ownersAt g ⟨p.x, p.y⟩ :=
    (mem_ownersAt _ _ _).mpr ⟨w1, h1, rfl, by cases p; exact hp1⟩
  have hm2 : w2.id ∈ ownersAt g ⟨p.x, p.y⟩ :=
    (mem_ownersAt _ _ _).mpr ⟨w2, h2, rfl, by cases p; exact hp2⟩
  have hid : w1.id = w2.id := by
    rcases gridWF_corr g hWF p.x p.y (by cases p; exact hinb) with hc | hc
    · rw [hc] at hm1 hm2
      simp only [List.mem_singleton] at hm1 hm2
      omega
    · rw [hc.1] at hm1
      simp at hm1
  have hnodup : (idsOf g).Nodup := hWF.2.2.2.2.1
  have hmap : (g.worms.map (·.id)).Nodup := hnodup
  exact List.inj_on_of_nodup_map hmap h1 h2 hid

theorem setWorm_fresh (worms : List Worm) (w : Worm)
    (h : ∀ u ∈ worms, u.id ≠ w.id) : setWorm worms w = worms ++ [w] := by
  unfold setWorm
  rw [if_neg]
  intro hc
  rw [List.any_eq_true] at hc
  obtain ⟨u, hu, he⟩ := hc
  exact h u hu (by simpa using he)

theorem findWorm_some (g : LogicalGrid) (id : Int) (w : Worm)
    (h : g.findWorm id = some w) : w ∈ g.worms ∧ w.id = id := by
  unfold LogicalGrid.findWorm at h
  exact ⟨List.mem_of_find?_eq_some h, by
    have := List.find?_some h
    simpa using this⟩

theorem findWorm_none (g : LogicalGrid) (id : Int)
    (h : g.findWorm id = none) : ∀ u ∈ g.worms, u.id ≠ id := by
  unfold LogicalGrid.findWorm at h
  intro u hu
  have h2 := List.find?_eq_none.mp h u hu
  intro hc
  exact h2 (by simp [hc])

theorem findWorm_of_mem (g : LogicalGrid) (hnodup : (idsOf g).Nodup) (w : Worm)
    (hw : w ∈ g.worms) : g.findWorm w.id = some w := by
  unfold LogicalGrid.findWorm
  rcases hf : g.worms.find? (fun u => u.id == w.id) with _ | u
  · exact absurd (List.find?_eq_none.mp hf w hw) (by simp)
  · have h1 := List.mem_of_find?_eq_some hf
    have h2 : u.id = w.id := by simpa using List.find?_some hf
    exact (List.inj_on_of_nodup_map hnodup h1 hw h2) ▸ hf

/-- `addWorm` under its precondition: the write succeeds, the worm is
appended to the collection, exactly its cells now read its id, and
well-formedness is preserved. -/
theorem addWorm_spec (g : LogicalGrid) (w : Worm) (hWF : GridWF g) (hpre : AddPre g w) :
    (g.addWorm w).2 = true ∧
    (g.addWorm w).1.width = g.width ∧
    (g.addWorm w).1.height = g.height ∧
    (g.addWorm w).1.worms = g.worms ++ [w] ∧
    (∀ x y : Int, (g.addWorm w).1.getWormIdAt x y =
      if (⟨x, y⟩ : Point) ∈ w.cells then w.id else g.getWormIdAt x y) ∧
    GridWF (g.addWorm w).1 := by
  obtain ⟨hid0, hfresh, hne, hcellsE⟩ := hpre
  have hWF' := hWF
  obtain ⟨hlen, hrowlen, hw0, hh0, hnodup, hworms, hcorr⟩ := hWF'
  have hcInB : ∀ p ∈ w.cells, cellInB g.width g.height p ∧ readAt g.grid p.x p.y = -1 := by
    intro p hp
    have h1 := (isEmpty_iff g p.x p.y).mp (hcellsE p hp)
    cases p
    exact h1
  have hbounds : ∀ p ∈ w.cells, 0 ≤ p.y ∧ p.y.toNat < g.grid.length ∧ 0 ≤ p.x ∧
      p.x.toNat < (g.grid.getD p.y.toNat []).length := by
    intro p hp
    obtain ⟨hinb, _⟩ := hcInB p hp
    obtain ⟨h1, h2, h3, h4⟩ : 0 ≤ p.x ∧ p.x < g.width ∧ 0 ≤ p.y ∧ p.y < g.height := by
      cases p
      exact (cellInB_mk ..).mp hinb
    have hrl := hrowlen p.y.toNat (List.mem_range.mpr (by omega))
    refine ⟨h3, by omega, h1, by rw [hrl]; omega⟩
  obtain ⟨hok, hlen2, hrowlen2, hread⟩ := writeCells_spec w.id w.cells g.grid hbounds
  have hworms2 : (g.addWorm w).1.worms = setWorm g.worms w := rfl
  have hgrid2 : (g.addWorm w).1.grid = (writeCells g.grid w.id w.cells).1 := rfl
  have hwidth2 : (g.addWorm w).1.width = g.width := rfl
  have hheight2 : (g.addWorm w).1.height = g.height := rfl
  have hok2 : (g.addWorm w).2 = (writeCells g.grid w.id w.cells).2 := rfl
  have happend : setWorm g.worms w = g.worms ++ [w] := by
    apply setWorm_fresh
    intro u hu he
    exact hfresh (he ▸ List.mem_map_of_mem (·.id) hu)
  have hwormsApp : (g.addWorm w).1.worms = g.worms ++ [w] := by rw [hworms2, happend]
  have hreads : ∀ x y : Int, (g.addWorm w).1.getWormIdAt x y =
      if (⟨x, y⟩ : Point) ∈ w.cells then w.id else g.getWormIdAt x y := by
    intro x y
    by_cases hinb : cellInB g.width g.height ⟨x, y⟩
    · obtain ⟨h1, h2, h3, h4⟩ := (cellInB_mk ..).mp hinb
      have hinb' : cellInB (g.addWorm w).1.width (g.addWorm w).1.height ⟨x, y⟩ := by
        rw [hwidth2, hheight2]
        exact hinb
      rw [getWormIdAt_inb _ x y hinb', hgrid2, hread x y h1 h3, getWormIdAt_inb g x y hinb]
    · have hinb' : ¬cellInB (g.addWorm w).1.width (g.addWorm w).1.height ⟨x, y⟩ := by
        rw [hwidth2, hheight2]
        exact hinb
      rw [getWormIdAt_oob _ x y hinb', getWormIdAt_oob g x y hinb, if_neg]
      intro hc
      exact hinb (hcInB _ hc).1
  have hOwn : ∀ p : Point, ownersAt (g.addWorm w).1 p =
      ownersAt g p ++ (if p ∈ w.cells then [w.id] else []) := by
    intro p
    unfold ownersAt
    rw [hwormsApp, List.filter_append, List.map_append]
    congr 1
    rw [List.filter_singleton]
    by_cases hp : p ∈ w.cells
    · rw [if_pos hp]
      have hany := (point_any_iff w.cells p).mpr hp
      rw [hany]
      rfl
    · rw [if_neg hp]
      have hany : (w.cells.any fun c => c.x == p.x && c.y == p.y) = false := by
        rw [← Bool.not_eq_true]
        intro hc
        exact hp ((point_any_iff w.cells p).mp hc)
      rw [hany]
      rfl
  refine ⟨by rw [hok2]; exact hok, hwidth2, hheight2, hwormsApp, hreads, ?_⟩
  refine ⟨?_, ?_, by rw [hwidth2]; exact hw0, by rw [hheight2]; exact hh0, ?_, ?_, ?_⟩
  · rw [hgrid2, hlen2, hheight2, hlen]
  · intro j hj
    rw [hheight2] at hj
    rw [hgrid2, hrowlen2 j, hwidth2, hrowlen j hj]
  · show ((g.addWorm w).1.worms.map (·.id)).Nodup
    rw [hwormsApp, List.map_append]
    rw [List.nodup_append]
    refine ⟨hnodup, by simp, ?_⟩
    intro a ha hb
    simp only [List.map_cons, List.map_nil, List.mem_singleton] at hb
    exact hfresh (hb ▸ ha)
  · intro u hu
    rw [hwormsApp] at hu
    rcases List.mem_append.mp hu with hu | hu
    · obtain ⟨k1, k2, k3⟩ := hworms u hu
      refine ⟨k1, k2, ?_⟩
      intro p hp
      have := k3 p hp
      rw [isValid_iff] at this ⊢
      rw [hwidth2, hheight2]
      exact this
    · rw [List.mem_singleton] at hu
      subst hu
      refine ⟨hid0, hne, ?_⟩
      intro p hp
      rw [isValid_iff, hwidth2, hheight2]
      exact (hcInB p hp).1
  · intro y hy x hx
    rw [hheight2] at hy
    rw [hwidth2] at hx
    have hinb : cellInB g.width g.height ⟨(x : Int), (y : Int)⟩ := by
      rw [cellInB_mk]
      have := List.mem_range.mp hx
      have := List.mem_range.mp hy
      refine ⟨by omega, by omega, by omega, by omega⟩
    rw [hOwn, hreads]
    by_cases hp : (⟨(x : Int), (y : Int)⟩ : Point) ∈ w.cells
    · rw [if_pos hp, if_pos hp]
      have hempty : ownersAt g ⟨(x : Int), (y : Int)⟩ = [] := by
        rcases gridWF_corr g hWF x y hinb with hc | hc
        · exfalso
          have hread0 : g.getWormIdAt x y = -1 := by
            rw [getWormIdAt_inb g x y hinb]
            exact (hcInB _ hp).2
          have : (-1 : Int) ∈ ownersAt g ⟨(x : Int), (y : Int)⟩ := by
            rw [hc, hread0]
            exact List.mem_singleton_self _
          have := gridWF_ids_nonneg g hWF (-1) _ this
          omega
        · exact hc.1
      rw [hempty]
      exact Or.inl rfl
    · rw [if_neg hp, if_neg hp, List.append_nil]
      exact gridWF_corr g hWF x y hinb

/-- `removeWorm` on a well-formed grid: the found worm's cells are
cleared, it is dropped from the collection, and well-formedness is
preserved; an unknown id is a no-op. -/
theorem removeWorm_spec (g : LogicalGrid) (id : Int) (hWF : GridWF g) :
    (g.findWorm id = none → g.removeWorm id = g) ∧
    ∀ w : Worm, g.findWorm id = some w →
      (g.removeWorm id).width = g.width ∧
      (g.removeWorm id).height = g.height ∧
      (g.removeWorm id).worms = g.worms.filter (fun u => !(u.id == id)) ∧
      (∀ x y : Int, (g.removeWorm id).getWormIdAt x y =
        if (⟨x, y⟩ : Point) ∈ w.cells then -1 else g.getWormIdAt x y) ∧
      GridWF (g.removeWorm id) := by
  constructor
  · intro hnone
    unfold LogicalGrid.removeWorm
    rw [hnone]
  · intro w hsome
    obtain ⟨hwmem, hwid⟩ := findWorm_some g id w hsome
    have hWF' := hWF
    obtain ⟨hlen, hrowlen, hw0, hh0, hnodup, hworms, hcorr⟩ := hWF'
    have hgeq : g.removeWorm id =
        { g with grid := clearCells g.grid w.cells,
                 worms := g.worms.filter (fun u => !(u.id == id)) } := by
      unfold LogicalGrid.removeWorm
      rw [hsome]
    have hcInB : ∀ p ∈ w.cells, cellInB g.width g.height p := by
      intro p hp
      have := (hworms w hwmem).2.2 p hp
      rw [isValid_iff] at this
      cases p
      exact this
    have hbounds : ∀ p ∈ w.cells, 0 ≤ p.y ∧ p.y.toNat < g.grid.length ∧ 0 ≤ p.x ∧
        p.x.toNat < (g.grid.getD p.y.toNat []).length := by
      intro p hp
      obtain ⟨h1, h2, h3, h4⟩ : 0 ≤ p.x ∧ p.x < g.width ∧ 0 ≤ p.y ∧ p.y < g.height := by
        have := hcInB p hp
        cases p
        exact (cellInB_mk ..).mp this
      have hrl := hrowlen p.y.toNat (List.mem_range.mpr (by omega))
      refine ⟨h3, by omega, h1, by rw [hrl]; omega⟩
    obtain ⟨hlen2, hrowlen2, hread⟩ := clearCells_spec w.cells g.grid hbounds
    have hreads : ∀ x y : Int, (g.removeWorm id).getWormIdAt x y =
        if (⟨x, y⟩ : Point) ∈ w.cells then -1 else g.getWormIdAt x y := by
      intro x y
      by_cases hinb : cellInB g.width g.height ⟨x, y⟩
      · obtain ⟨h1, h2, h3, h4⟩ := (cellInB_mk ..).mp hinb
        have hinb' : cellInB (g.removeWorm id).width (g.removeWorm id).height ⟨x, y⟩ := by
          rw [hgeq]
          exact hinb
        rw [getWormIdAt_inb _ x y hinb', hgeq]
        show readAt (clearCells g.grid w.cells) x y = _
        rw [hread x y h1 h3, getWormIdAt_inb g x y hinb]
      · have hinb' : ¬cellInB (g.removeWorm id).width (g.removeWorm id).height ⟨x, y⟩ := by
          rw [hgeq]
          exact hinb
        rw [getWormIdAt_oob _ x y hinb', getWormIdAt_oob g x y hinb, if_neg]
        intro hc
        exact hinb (hcInB _ hc)
    have hOwn : ∀ p : Point, p ∉ w.cells →
        ownersAt (g.removeWorm id) p = ownersAt g p := by
      intro p hp
      unfold ownersAt
      rw [hgeq]
      show ((g.worms.filter (fun u => !(u.id == id))).filter
        (fun u => u.cells.any fun c => c.x == p.x && c.y == p.y)).map (·.id) = _
      rw [List.filter_comm]
      congr 1
      apply List.filter_eq_self.mpr
      intro u hu
      rcases List.mem_filter.mp hu with ⟨hu1, hu2⟩
      simp only [Bool.not_eq_true', beq_eq_false_iff_ne, ne_eq, decide_eq_true_eq]
      intro he
      have : u = w := List.inj_on_of_nodup_map hnodup hu1 hwmem (by rw [he, hwid])
      subst this
      exact hp ((point_any_iff u.cells p).mp hu2)
    have hOwnIn : ∀ p : Point, p ∈ w.cells → ownersAt (g.removeWorm id) p = [] := by
      intro p hp
      unfold ownersAt
      rw [hgeq]
      show ((g.worms.filter (fun u => !(u.id == id))).filter
        (fun u => u.cells.any fun c => c.x == p.x && c.y == p.y)).map (·.id) = _
      rw [List.filter_comm]
      have : ∀ u ∈ g.worms.filter (fun u => u.cells.any fun c => c.x == p.x && c.y == p.y),
          ¬(!(u.id == id)) = true := by
        intro u hu
        rcases List.mem_filter.mp hu with ⟨hu1, hu2⟩
        have : u = w := gridWF_disjoint g hWF u w hu1 hwmem p
          ((point_any_iff u.cells p).mp hu2) hp
        subst this
        simp [hwid]
      rw [List.filter_eq_nil_iff.mpr this]
      rfl
    rw [hgeq] at hreads hOwn hOwnIn ⊢
    refine ⟨rfl, rfl, rfl, hreads, ?_, ?_, hw0, hh0, ?_, ?_, ?_⟩
    · show (clearCells g.grid w.cells).length = _
      rw [hlen2, hlen]
    · intro j hj
      show ((clearCells g.grid w.cells).getD j []).length = _
      rw [hrowlen2 j, hrowlen j hj]
    · show (List.map (fun u : Worm => u.id) (g.worms.filter (fun u => !(u.id == id)))).Nodup
      have hn2 : (List.map (fun u : Worm => u.id) g.worms).Nodup := hnodup
      exact hn2.sublist
        (List.Sublist.map (fun u : Worm => u.id) (List.filter_sublist g.worms))
    · intro u hu
      rcases List.mem_filter.mp hu with ⟨hu1, _⟩
      obtain ⟨k1, k2, k3⟩ := hworms u hu1
      exact ⟨k1, k2, fun p hp => k3 p hp⟩
    · intro y hy x hx
      have hx2 : x < g.width.toNat := List.mem_range.mp hx
      have hy2 : y < g.height.toNat := List.mem_range.mp hy
      have hinb : cellInB g.width g.height ⟨(x : Int), (y : Int)⟩ := by
        rw [cellInB_mk]
        refine ⟨by omega, by omega, by omega, by omega⟩
      by_cases hp : (⟨(x : Int), (y : Int)⟩ : Point) ∈ w.cells
      · right
        refine ⟨hOwnIn _ hp, ?_⟩
        rw [hreads, if_pos hp]
      · rw [hOwn _ hp]
        have h5 := hreads (x : Int) (y : Int)
        rw [if_neg hp] at h5
        rw [h5]
        exact gridWF_corr g hWF x y hinb

theorem getD_replicate {α : Type} (n j : Nat) (a d : α) :
    (List.replicate n a).getD j d = if j < n then a else d := by
  by_cases h : j < n
  · rw [if_pos h, List.getD_eq_getElem _ _ (by simpa using h), List.getElem_replicate]
  · rw [if_neg h, List.getD_eq_default]
    simpa using Nat.le_of_not_lt h

/-- A freshly constructed grid is well-formed. -/
theorem gridWF_new (w h : Int) (hw : 0 ≤ w) (hh : 0 ≤ h) :
    GridWF (LogicalGrid.new w h) := by
  refine ⟨by simp [LogicalGrid.new], ?_, hw, hh, by simp [LogicalGrid.new, idsOf], ?_, ?_⟩
  · intro j hj
    have hj2 : j < h.toNat := List.mem_range.mp hj
    show ((List.replicate h.toNat (List.replicate w.toNat (-1))).getD j []).length = w.toNat
    rw [getD_replicate, if_pos hj2, List.length_replicate]
  · intro u hu
    exact absurd hu (by simp [LogicalGrid.new])
  · intro y hy x hx
    right
    constructor
    · unfold ownersAt
      simp [LogicalGrid.new]
    · have hx2 : x < w.toNat := List.mem_range.mp hx
      have hy2 : y < h.toNat := List.mem_range.mp hy
      have hinb : cellInB (LogicalGrid.new w h).width (LogicalGrid.new w h).height
          ⟨(x : Int), (y : Int)⟩ := by
        rw [cellInB_mk]
        show 0 ≤ (x : Int) ∧ (x : Int) < w ∧ 0 ≤ (y : Int) ∧ (y : Int) < h
        refine ⟨by omega, by omega, by omega, by omega⟩
      rw [getWormIdAt_inb _ _ _ hinb]
      show readAt (List.replicate h.toNat (List.replicate w.toNat (-1))) _ _ = -1
      unfold readAt
      rw [Int.toNat_natCast, Int.toNat_natCast, getD_replicate, if_pos hy2,
        getD_replicate, if_pos hx2]

/-! ## C4: occupancy-consistency invariant -/

/-- Every grid reachable by precondition-respecting `addWorm`s and
arbitrary `removeWorm`s is well-formed. -/
theorem reachable_wf (g : LogicalGrid) (h : ReachableGrid g) : GridWF g := by
  induction h with
  | init w h hw hh => exact gridWF_new w h hw hh
  | add g w _ hpre ih => exact (addWorm_spec g w ih hpre).2.2.2.2.2
  | remove g id _ ih =>
    rcases hf : g.findWorm id with _ | w
    · rw [(removeWorm_spec g id ih).1 hf]
      exact ih
    · exact ((removeWorm_spec g id ih).2 w hf).2.2.2.2

/-- **C4, amended.**  Starting from an empty grid and applying any
sequence of `addWorm` calls — each with a *fresh nonnegative id* and a
nonempty body of currently empty cells — and arbitrary `removeWorm`
calls, at most one worm occupies any cell, and the set of grid cells
mapped to a live worm's id is exactly that worm's `cells`. -/
theorem C4_occupancy_invariant (g : LogicalGrid) (h : ReachableGrid g) :
    (∀ p : Point, (ownersAt g p).length ≤ 1) ∧
      ∀ w ∈ g.worms, ∀ x y : Int,
        g.getWormIdAt x y = w.id ↔ (⟨x, y⟩ : Point) ∈ w.cells := by
  have hWF := reachable_wf g h
  constructor
  · intro p
    by_cases hinb : cellInB g.width g.height p
    · rcases gridWF_corr g hWF p.x p.y (by cases p; exact hinb) with hc | hc
      · cases p
        rw [hc]
        exact Nat.le_refl 1
      · cases p
        rw [hc.1]
        exact Nat.zero_le 1
    · rcases howners : ownersAt g p with _ | ⟨i, rest⟩
      · exact Nat.zero_le 1
      · exfalso
        have : i ∈ ownersAt g p := by rw [howners]; exact List.mem_cons_self i rest
        obtain ⟨u, hu, _, hp⟩ := (mem_ownersAt g p i).mp this
        apply hinb
        have := (hWF.2.2.2.2.2.1 u hu).2.2 p hp
        rw [isValid_iff] at this
        cases p
        exact this
  · intro w hw x y
    constructor
    · intro hread
      have hid0 : 0 ≤ w.id := (hWF.2.2.2.2.2.1 w hw).1
      by_cases hinb : cellInB g.width g.height ⟨x, y⟩
      · rcases gridWF_corr g hWF x y hinb with hc | hc
        · have : w.id ∈ ownersAt g ⟨x, y⟩ := by
            rw [hc, hread]
            exact List.mem_singleton_self _
          obtain ⟨u, hu, hid, hp⟩ := (mem_ownersAt _ _ _).mp this
          have : u = w := List.inj_on_of_nodup_map hWF.2.2.2.2.1 hu hw hid
          exact this ▸ hp
        · rw [hc.2] at hread
          omega
      · rw [getWormIdAt_oob g x y hinb] at hread
        omega
    · intro hmem
      exact gridWF_read_of_mem g hWF w hw ⟨x, y⟩ hmem

/-- Witness for the amended C4, at the concrete grid built by adding a
2-cell worm to an empty 1×2 grid. -/
theorem C4_occupancy_invariant_witness :
    (∀ p : Point,
      (ownersAt ((LogicalGrid.new 1 2).addWorm ⟨0, [⟨0, 0⟩, ⟨0, 1⟩], .UP, 7⟩).1 p).length ≤ 1) ∧
      ∀ w ∈ ((LogicalGrid.new 1 2).addWorm ⟨0, [⟨0, 0⟩, ⟨0, 1⟩], .UP, 7⟩).1.worms,
        ∀ x y : Int,
          ((LogicalGrid.new 1 2).addWorm ⟨0, [⟨0, 0⟩, ⟨0, 1⟩], .UP, 7⟩).1.getWormIdAt x y = w.id
            ↔ (⟨x, y⟩ : Point) ∈ w.cells :=
  C4_occupancy_invariant _
    (ReachableGrid.add _ _ (ReachableGrid.init 1 2 (by decide) (by decide)) (by decide))

/-- **C4, counterexample.**  The claim's stated precondition (only "none
of the worm's cells are already occupied") admits two `addWorm` calls with
the *same id* 0 on disjoint empty cells of a 2×2 grid; afterwards the
live worm with id 0 has `cells = [(1,0)]` but cell `(0,0)` still maps to
id 0, so the set of cells mapped to the worm's id is not the worm's
`cells`. -/
theorem C4_counterexample :
    (∀ p ∈ [(⟨0, 0⟩ : Point)], (LogicalGrid.new 2 2).isEmpty p.x p.y = true) ∧
    (∀ p ∈ [(⟨1, 0⟩ : Point)],
      ((LogicalGrid.new 2 2).addWorm ⟨0, [⟨0, 0⟩], .UP, 7⟩).1.isEmpty p.x p.y = true) ∧
    ∃ w ∈ (((LogicalGrid.new 2 2).addWorm ⟨0, [⟨0, 0⟩], .UP, 7⟩).1.addWorm
        ⟨0, [⟨1, 0⟩], .UP, 8⟩).1.worms,
      (((LogicalGrid.new 2 2).addWorm ⟨0, [⟨0, 0⟩], .UP, 7⟩).1.addWorm
        ⟨0, [⟨1, 0⟩], .UP, 8⟩).1.getWormIdAt 0 0 = w.id ∧
      (⟨0, 0⟩ : Point) ∉ w.cells := by
  decide

/-! ## Ray characterization -/

theorem rayPos_succ (p : Point) (d : Dir) (k : Nat) :
    rayPos p d (k + 1) = d.step (rayPos p d k) := rfl

theorem rayPos_shift (p : Point) (d : Dir) :
    ∀ k : Nat, rayPos (d.step p) d k = rayPos p d (k + 1) := by
  intro k
  induction k with
  | zero => rfl
  | succ k ih =>
    rw [rayPos_succ, ih]
    exact (rayPos_succ p d (k + 1)).symm

theorem rayPos_UP (p : Point) (k : Nat) : rayPos p .UP k = ⟨p.x, p.y - k⟩ := by
  induction k with
  | zero => simp [rayPos]
  | succ k ih =>
    rw [rayPos_succ, ih]
    show (⟨p.x, p.y - k - 1⟩ : Point) = ⟨p.x, p.y - (k + 1 : Nat)⟩
    congr 1
    push_cast
    ring

theorem rayPos_DOWN (p : Point) (k : Nat) : rayPos p .DOWN k = ⟨p.x, p.y + k⟩ := by
  induction k with
  | zero => simp [rayPos]
  | succ k ih =>
    rw [rayPos_succ, ih]
    show (⟨p.x, p.y + k + 1⟩ : Point) = ⟨p.x, p.y + (k + 1 : Nat)⟩
    congr 1
    push_cast
    ring

theorem rayPos_LEFT (p : Point) (k : Nat) : rayPos p .LEFT k = ⟨p.x - k, p.y⟩ := by
  induction k with
  | zero => simp [rayPos]
  | succ k ih =>
    rw [rayPos_succ, ih]
    show (⟨p.x - k - 1, p.y⟩ : Point) = ⟨p.x - (k + 1 : Nat), p.y⟩
    congr 1
    push_cast
    ring

theorem rayPos_RIGHT (p : Point) (k : Nat) : rayPos p .RIGHT k = ⟨p.x + k, p.y⟩ := by
  induction k with
  | zero => simp [rayPos]
  | succ k ih =>
    rw [rayPos_succ, ih]
    show (⟨p.x + k + 1, p.y⟩ : Point) = ⟨p.x + (k + 1 : Nat), p.y⟩
    congr 1
    push_cast
    ring

/-- A ray position that is still inside the grid bounds the step count:
the moving coordinate changes by one per step inside `[0, bound)`. -/
theorem validRun_le_fuel (g : LogicalGrid) (p : Point) (d : Dir) (k : Nat)
    (hval : g.isValid (rayPos p d k).x (rayPos p d k).y = true) :
    k ≤ rayFuel g p.x p.y := by
  rw [isValid_iff] at hval
  unfold rayFuel
  cases d with
  | UP =>
    rw [rayPos_UP] at hval
    obtain ⟨h1, h2, h3, h4⟩ := (cellInB_mk ..).mp hval
    have h3b : (0 : Int) ≤ p.y - k := h3
    omega
  | DOWN =>
    rw [rayPos_DOWN] at hval
    obtain ⟨h1, h2, h3, h4⟩ := (cellInB_mk ..).mp hval
    have h4b : p.y + k < g.height := h4
    omega
  | LEFT =>
    rw [rayPos_LEFT] at hval
    obtain ⟨h1, h2, h3, h4⟩ := (cellInB_mk ..).mp hval
    have h1b : (0 : Int) ≤ p.x - k := h1
    omega
  | RIGHT =>
    rw [rayPos_RIGHT] at hval
    obtain ⟨h1, h2, h3, h4⟩ := (cellInB_mk ..).mp hval
    have h2b : p.x + k < g.width := h2
    omega

/-- `rayCells` only depends on the grid through its dimensions. -/
theorem rayCells_congr (g g' : LogicalGrid) (hw : g'.width = g.width)
    (hh : g'.height = g.height) (d : Dir) :
    ∀ (fuel : Nat) (p : Point), rayCells g' d p fuel = rayCells g d p fuel := by
  intro fuel
  induction fuel with
  | zero => intro p; rfl
  | succ fuel ih =>
    intro p
    show (if g'.isValid (d.step p).x (d.step p).y then
        d.step p :: rayCells g' d (d.step p) fuel else []) =
      (if g.isValid (d.step p).x (d.step p).y then
        d.step p :: rayCells g d (d.step p) fuel else [])
    have hv : g'.isValid (d.step p).x (d.step p).y = g.isValid (d.step p).x (d.step p).y := by
      unfold LogicalGrid.isValid
      rw [hw, hh]
    rw [hv, ih]

theorem rayFind_none_clear (g : LogicalGrid) (hit : Point → Bool) (d : Dir) :
    ∀ (fuel : Nat) (p : Point), rayFind g hit d p fuel = none →
      ∀ q ∈ rayCells g d p fuel, hit q = false := by
  intro fuel
  induction fuel with
  | zero =>
    intro p _ q hq
    exact absurd hq (by simp [rayCells])
  | succ fuel ih =>
    intro p hnone q hq
    by_cases hv : g.isValid (d.step p).x (d.step p).y = true
    · have hq2 : q ∈ d.step p :: rayCells g d (d.step p) fuel := by
        rw [show rayCells g d p (fuel + 1) =
            if g.isValid (d.step p).x (d.step p).y then
              d.step p :: rayCells g d (d.step p) fuel else [] from rfl, if_pos hv] at hq
        exact hq
      have hnone2 : (if hit (d.step p) then some (d.step p)
          else rayFind g hit d (d.step p) fuel) = none := by
        rw [show rayFind g hit d p (fuel + 1) =
            if g.isValid (d.step p).x (d.step p).y then
              (if hit (d.step p) then some (d.step p) else rayFind g hit d (d.step p) fuel)
            else none from rfl, if_pos hv] at hnone
        exact hnone
      by_cases hh : hit (d.step p) = true
      · rw [if_pos hh] at hnone2
        exact absurd hnone2 (by simp)
      · rw [Bool.not_eq_true] at hh
        rw [if_neg (by rw [hh]; simp)] at hnone2
        rcases List.mem_cons.mp hq2 with hq3 | hq3
        · rw [hq3, hh]
        · exact ih (d.step p) hnone2 q hq3
    · rw [show rayCells g d p (fuel + 1) =
          if g.isValid (d.step p).x (d.step p).y then
            d.step p :: rayCells g d (d.step p) fuel else [] from rfl, if_neg hv] at hq
      exact absurd hq (by simp)

theorem rayFind_some_mem (g : LogicalGrid) (hit : Point → Bool) (d : Dir) :
    ∀ (fuel : Nat) (p : Point) (q : Point), rayFind g hit d p fuel = some q →
      q ∈ rayCells g d p fuel ∧ hit q = true := by
  intro fuel
  induction fuel with
  | zero =>
    intro p q hq
    exact absurd hq (by simp [rayFind])
  | succ fuel ih =>
    intro p q hq
    by_cases hv : g.isValid (d.step p).x (d.step p).y = true
    · rw [show rayFind g hit d p (fuel + 1) =
          if g.isValid (d.step p).x (d.step p).y then
            (if hit (d.step p) then some (d.step p) else rayFind g hit d (d.step p) fuel)
          else none from rfl, if_pos hv] at hq
      have hcells : rayCells g d p (fuel + 1) = d.step p :: rayCells g d (d.step p) fuel := by
        rw [show rayCells g d p (fuel + 1) =
            if g.isValid (d.step p).x (d.step p).y then
              d.step p :: rayCells g d (d.step p) fuel else [] from rfl, if_pos hv]
      by_cases hh : hit (d.step p) = true
      · rw [if_pos hh] at hq
        injection hq with hq
        subst hq
        exact ⟨by rw [hcells]; exact List.mem_cons_self _ _, hh⟩
      · rw [if_neg hh] at hq
        obtain ⟨hm, hh2⟩ := ih (d.step p) q hq
        exact ⟨by rw [hcells]; exact List.mem_cons_of_mem _ hm, hh2⟩
    · rw [show rayFind g hit d p (fuel + 1) =
          if g.isValid (d.step p).x (d.step p).y then
            (if hit (d.step p) then some (d.step p) else rayFind g hit d (d.step p) fuel)
          else none from rfl, if_neg hv] at hq
      exact absurd hq (by simp)

/-- Membership in the ray footprint gives a step index with a fully valid
prefix. -/
theorem rayCells_char (g : LogicalGrid) (d : Dir) :
    ∀ (fuel : Nat) (p : Point) (q : Point), q ∈ rayCells g d p fuel →
      ∃ k : Nat, 1 ≤ k ∧ k ≤ fuel ∧ q = rayPos p d k ∧
        ∀ j : Nat, 1 ≤ j → j ≤ k → g.isValid (rayPos p d j).x (rayPos p d j).y = true := by
  intro fuel
  induction fuel with
  | zero =>
    intro p q hq
    exact absurd hq (by simp [rayCells])
  | succ fuel ih =>
    intro p q hq
    by_cases hv : g.isValid (d.step p).x (d.step p).y = true
    · rw [show rayCells g d p (fuel + 1) =
          if g.isValid (d.step p).x (d.step p).y then
            d.step p :: rayCells g d (d.step p) fuel else [] from rfl, if_pos hv] at hq
      rcases List.mem_cons.mp hq with hq2 | hq2
      · refine ⟨1, Nat.le_refl 1, by omega, hq2, ?_⟩
        intro j h1 h2
        have : j = 1 := by omega
        subst this
        exact hv
      · obtain ⟨k, hk1, hk2, hkq, hkval⟩ := ih (d.step p) q hq2
        refine ⟨k + 1, by omega, by omega, by rw [hkq, rayPos_shift], ?_⟩
        intro j h1 h2
        cases j with
        | zero => omega
        | succ j2 =>
          cases j2 with
          | zero => exact hv
          | succ j3 =>
            have := hkval (j3 + 1) (by omega) (by omega)
            rw [rayPos_shift] at this
            exact this
    · rw [show rayCells g d p (fuel + 1) =
          if g.isValid (d.step p).x (d.step p).y then
            d.step p :: rayCells g d (d.step p) fuel else [] from rfl, if_neg hv] at hq
      exact absurd hq (by simp)

/-- A valid-prefix ray position within the fuel is in the footprint. -/
theorem rayPos_mem_rayCells (g : LogicalGrid) (d : Dir) :
    ∀ (fuel : Nat) (p : Point) (k : Nat), 1 ≤ k → k ≤ fuel →
      (∀ j : Nat, 1 ≤ j → j ≤ k → g.isValid (rayPos p d j).x (rayPos p d j).y = true) →
      rayPos p d k ∈ rayCells g d p fuel := by
  intro fuel
  induction fuel with
  | zero =>
    intro p k h1 h2 _
    omega
  | succ fuel ih =>
    intro p k h1 h2 hval
    have hv : g.isValid (d.step p).x (d.step p).y = true := by
      have := hval 1 (Nat.le_refl 1) h1
      exact this
    rw [show rayCells g d p (fuel + 1) =
        if g.isValid (d.step p).x (d.step p).y then
          d.step p :: rayCells g d (d.step p) fuel else [] from rfl, if_pos hv]
    cases k with
    | zero => omega
    | succ k2 =>
      cases k2 with
      | zero => exact List.mem_cons_self _ _
      | succ k3 =>
        apply List.mem_cons_of_mem
        rw [← rayPos_shift]
        apply ih (d.step p) (k3 + 1) (by omega) (by omega)
        intro j hj1 hj2
        rw [rayPos_shift]
        exact hval (j + 1) (by omega) (by omega)

/-- `getRaycastBlockers` returns no blocker exactly when the mathematical
ray from the start, with `skip` transparent, is clear to the wall. -/
theorem getRaycastBlockers_nil_iff (g : LogicalGrid) (x y : Int) (d : Dir) (skip : Int) :
    getRaycastBlockers g x y d skip = [] ↔ ClearRay g ⟨x, y⟩ d skip := by
  unfold getRaycastBlockers
  constructor
  · intro hnil
    rcases hf : rayFind g
        (fun q => !(g.getWormIdAt q.x q.y == -1) && !(g.getWormIdAt q.x q.y == skip))
        d ⟨x, y⟩ (rayFuel g x y) with _ | q
    · intro k hk1 hkval
      have hfuel : k ≤ rayFuel g x y :=
        validRun_le_fuel g ⟨x, y⟩ d k (hkval k hk1 (Nat.le_refl k))
      have hmem := rayPos_mem_rayCells g d (rayFuel g x y) ⟨x, y⟩ k hk1 hfuel hkval
      have hhit := rayFind_none_clear g _ d (rayFuel g x y) ⟨x, y⟩ hf _ hmem
      simp only [Bool.and_eq_false_iff, Bool.not_eq_false', beq_iff_eq] at hhit
      rcases hhit with hh | hh
      · exact Or.inl hh
      · exact Or.inr hh
    · rw [hf] at hnil
      exact absurd hnil (by simp)
  · intro hclear
    rcases hf : rayFind g
        (fun q => !(g.getWormIdAt q.x q.y == -1) && !(g.getWormIdAt q.x q.y == skip))
        d ⟨x, y⟩ (rayFuel g x y) with _ | q
    · rfl
    · exfalso
      obtain ⟨hmem, hhit⟩ := rayFind_some_mem g _ d (rayFuel g x y) ⟨x, y⟩ q hf
      obtain ⟨k, hk1, _, hkq, hkval⟩ := rayCells_char g d (rayFuel g x y) ⟨x, y⟩ q hmem
      rcases hclear k hk1 hkval with hc | hc <;>
        (rw [hkq] at hhit; simp [hc] at hhit)

/-- `checkSelfBlock` is `false` exactly when the ray from the head never
re-enters the body before leaving the grid. -/
theorem checkSelfBlock_false_iff (g : LogicalGrid) (cells : List Point) (d : Dir) :
    checkSelfBlock g cells d = false ↔ SelfClearRay g cells d := by
  unfold checkSelfBlock
  constructor
  · intro hnone k hk1 hkval hc
    rcases hf : rayFind g (fun q => cells.any fun c => c.x == q.x && c.y == q.y) d
        (cells.headD ⟨0, 0⟩) (rayFuel g (cells.headD ⟨0, 0⟩).x (cells.headD ⟨0, 0⟩).y)
      with _ | q
    · have hfuel := validRun_le_fuel g (cells.headD ⟨0, 0⟩) d k (hkval k hk1 (Nat.le_refl k))
      have hmem := rayPos_mem_rayCells g d _ (cells.headD ⟨0, 0⟩) k hk1 hfuel hkval
      have hhit := rayFind_none_clear g _ d _ (cells.headD ⟨0, 0⟩) hf _ hmem
      rw [← Bool.not_eq_true] at hhit
      exact hhit ((point_any_iff cells _).mpr hc)
    · have hnone2 : (rayFind g (fun q => cells.any fun c => c.x == q.x && c.y == q.y) d
          (cells.headD ⟨0, 0⟩)
          (rayFuel g (cells.headD ⟨0, 0⟩).x (cells.headD ⟨0, 0⟩).y)).isSome = false := hnone
      rw [hf] at hnone2
      exact absurd hnone2 (by simp)
  · intro hclear
    rcases hf : rayFind g (fun q => cells.any fun c => c.x == q.x && c.y == q.y) d
        (cells.headD ⟨0, 0⟩) (rayFuel g (cells.headD ⟨0, 0⟩).x (cells.headD ⟨0, 0⟩).y)
      with _ | q
    · show (rayFind g (fun q => cells.any fun c => c.x == q.x && c.y == q.y) d
          (cells.headD ⟨0, 0⟩)
          (rayFuel g (cells.headD ⟨0, 0⟩).x (cells.headD ⟨0, 0⟩).y)).isSome = false
      rw [hf]
      rfl
    · exfalso
      obtain ⟨hmem, hhit⟩ := rayFind_some_mem g _ d _ (cells.headD ⟨0, 0⟩) q hf
      obtain ⟨k, hk1, _, hkq, hkval⟩ := rayCells_char g d _ (cells.headD ⟨0, 0⟩) q hmem
      exact hclear k hk1 hkval (by rw [← hkq]; exact (point_any_iff cells q).mp hhit)

/-- A non-blocked `isBlockedBySet` verdict clears every cell of the ray
footprint of remaining-owned occupancy. -/
theorem isBlockedBySet_false_clear (g : LogicalGrid) (sid : Int) (head : Point)
    (d : Dir) (remaining : List Int)
    (h : isBlockedBySet g sid head d remaining = false) :
    ∀ q ∈ rayCells g d head (rayFuel g head.x head.y),
      ¬(g.getWormIdAt q.x q.y ≠ -1 ∧ g.getWormIdAt q.x q.y ≠ sid ∧
        g.getWormIdAt q.x q.y ∈ remaining) := by
  intro q hq hc
  unfold isBlockedBySet at h
  rcases hf : rayFind g
      (fun q =>
        !(g.getWormIdAt q.x q.y == -1) && !(g.getWormIdAt q.x q.y == sid) &&
          remaining.contains (g.getWormIdAt q.x q.y))
      d head (rayFuel g head.x head.y) with _ | q2
  · have hhit := rayFind_none_clear g _ d _ head hf q hq
    simp only [Bool.and_eq_false_iff, Bool.not_eq_false', beq_iff_eq] at hhit
    obtain ⟨h1, h2, h3⟩ := hc
    rcases hhit with (hh | hh) | hh
    · exact h1 hh
    · exact h2 hh
    · have h4 : remaining.contains (g.getWormIdAt q.x q.y) = true := by
        simpa using h3
      rw [h4] at hh
      exact Bool.noConfusion hh
  · rw [hf] at h
    exact absurd h (by simp)

/-! ## C3: tryRemoveWorm contract -/

/-- **C3.**  On a well-formed grid: `tryRemoveWorm(id)` returns `false`
and leaves the manager untouched when no worm with that id exists; when
the worm exists it succeeds exactly when the ray from the worm's head in
its direction — with the worm's own id transparent — reaches the grid
boundary, in which case the worm's cells are cleared and it is deleted
from the collection; when blocked it returns `false` with the manager
exactly as before the call. -/
theorem C3_tryRemoveWorm_contract (m : GameManager) (id : Int)
    (hWF : GridWF m.logicGrid) :
    (m.logicGrid.findWorm id = none → m.tryRemoveWorm id = (m, false)) ∧
    ∀ w : Worm, m.logicGrid.findWorm id = some w →
      ((m.tryRemoveWorm id).2 = true ↔ ClearRay m.logicGrid w.headPt w.direction id) ∧
      (ClearRay m.logicGrid w.headPt w.direction id →
        (m.tryRemoveWorm id).2 = true ∧
        (m.tryRemoveWorm id).1.gridWidth = m.gridWidth ∧
        (m.tryRemoveWorm id).1.gridHeight = m.gridHeight ∧
        (m.tryRemoveWorm id).1.initialLevelJson = m.initialLevelJson ∧
        (m.tryRemoveWorm id).1.logicGrid.worms =
          m.logicGrid.worms.filter (fun u => !(u.id == id)) ∧
        ∀ x y : Int, (m.tryRemoveWorm id).1.logicGrid.getWormIdAt x y =
          if (⟨x, y⟩ : Point) ∈ w.cells then -1 else m.logicGrid.getWormIdAt x y) ∧
      (¬ClearRay m.logicGrid w.headPt w.direction id →
        m.tryRemoveWorm id = (m, false)) := by
  constructor
  · intro hnone
    unfold GameManager.tryRemoveWorm
    rw [hnone]
  · intro w hsome
    have hstep : m.tryRemoveWorm id =
        (if (getRaycastBlockers m.logicGrid w.headPt.x w.headPt.y w.direction id).length == 0
          then ({ m with logicGrid := m.logicGrid.removeWorm id }, true)
          else (m, false)) := by
      unfold GameManager.tryRemoveWorm
      rw [hsome]
    by_cases hb : getRaycastBlockers m.logicGrid w.headPt.x w.headPt.y w.direction id = []
    · have hclear : ClearRay m.logicGrid w.headPt w.direction id := by
        have := (getRaycastBlockers_nil_iff m.logicGrid w.headPt.x w.headPt.y
          w.direction id).mp hb
        cases hhead : w.headPt
        rw [hhead] at this
        exact this
      have hres : m.tryRemoveWorm id = ({ m with logicGrid := m.logicGrid.removeWorm id }, true) := by
        rw [hstep, hb]
        rfl
      obtain ⟨hw1, hw2, hw3, hw4, hw5⟩ := (removeWorm_spec m.logicGrid id hWF).2 w hsome
      refine ⟨⟨fun _ => hclear, fun _ => by rw [hres]⟩, fun _ => ?_, fun hc => absurd hclear hc⟩
      rw [hres]
      exact ⟨rfl, rfl, rfl, rfl, hw3, hw4⟩
    · have hnotclear : ¬ClearRay m.logicGrid w.headPt w.direction id := by
        intro hc
        apply hb
        apply (getRaycastBlockers_nil_iff m.logicGrid w.headPt.x w.headPt.y
          w.direction id).mpr
        cases hhead : w.headPt
        rw [hhead] at hc
        exact hc
      have hres : m.tryRemoveWorm id = (m, false) := by
        rw [hstep, if_neg]
        simp only [beq_iff_eq, List.length_eq_zero]
        exact hb
      refine ⟨⟨fun h2 => ?_, fun hc => absurd hc hnotclear⟩,
        fun hc => absurd hc hnotclear, fun _ => hres⟩
      rw [hres] at h2
      exact absurd h2 (by simp)

/-- Witness for C3: a 1×2 grid holding one 2-cell worm pointing UP (the
spec's §8 example); the contract applies to it. -/
theorem C3_tryRemoveWorm_contract_witness :
    GridWF mC3.logicGrid ∧
    ((mC3.logicGrid.findWorm 0 = none → mC3.tryRemoveWorm 0 = (mC3, false)) ∧
      ∀ w : Worm, mC3.logicGrid.findWorm 0 = some w →
        ((mC3.tryRemoveWorm 0).2 = true ↔ ClearRay mC3.logicGrid w.headPt w.direction 0) ∧
        (ClearRay mC3.logicGrid w.headPt w.direction 0 →
          (mC3.tryRemoveWorm 0).2 = true ∧
          (mC3.tryRemoveWorm 0).1.gridWidth = mC3.gridWidth ∧
          (mC3.tryRemoveWorm 0).1.gridHeight = mC3.gridHeight ∧
          (mC3.tryRemoveWorm 0).1.initialLevelJson = mC3.initialLevelJson ∧
          (mC3.tryRemoveWorm 0).1.logicGrid.worms =
            mC3.logicGrid.worms.filter (fun u => !(u.id == 0)) ∧
          ∀ x y : Int, (mC3.tryRemoveWorm 0).1.logicGrid.getWormIdAt x y =
            if (⟨x, y⟩ : Point) ∈ w.cells then -1 else mC3.logicGrid.getWormIdAt x y) ∧
        (¬ClearRay mC3.logicGrid w.headPt w.direction 0 →
          mC3.tryRemoveWorm 0 = (mC3, false))) :=
  ⟨by decide, C3_tryRemoveWorm_contract mC3 0 (by decide)⟩

theorem tryRemoveWorm_frame (m : GameManager) (id : Int) :
    (m.tryRemoveWorm id).1.gridWidth = m.gridWidth ∧
    (m.tryRemoveWorm id).1.gridHeight = m.gridHeight ∧
    (m.tryRemoveWorm id).1.initialLevelJson = m.initialLevelJson := by
  unfold GameManager.tryRemoveWorm
  cases m.logicGrid.findWorm id with
  | none => exact ⟨rfl, rfl, rfl⟩
  | some w =>
    simp only []
    split <;> exact ⟨rfl, rfl, rfl⟩

theorem removeAll_frame (ids : List Int) (m : GameManager) :
    (removeAll m ids).1.gridWidth = m.gridWidth ∧
    (removeAll m ids).1.gridHeight = m.gridHeight ∧
    (removeAll m ids).1.initialLevelJson = m.initialLevelJson := by
  induction ids generalizing m with
  | nil => exact ⟨rfl, rfl, rfl⟩
  | cons id rest ih =>
    have h1 := tryRemoveWorm_frame m id
    have h2 := ih (m.tryRemoveWorm id).1
    simp only [removeAll]
    exact ⟨h2.1.trans h1.1, h2.2.1.trans h1.2.1, h2.2.2.trans h1.2.2⟩

/-! ## Peel-phase characterization -/

theorem tryDirs_some (g : LogicalGrid) (id : Int) (cells : List Point)
    (dirs : List Dir) (remaining : List Int) (d : Dir)
    (h : tryDirs g id cells dirs remaining = some d) :
    checkSelfBlock g cells d = false ∧
      isBlockedBySet g id (cells.headD ⟨0, 0⟩) d remaining = false := by
  unfold tryDirs at h
  have := List.find?_some h
  simp only [Bool.and_eq_true, Bool.not_eq_true'] at this
  exact this

theorem findFreeWorm_some (g : LogicalGrid) (remaining : List Int) (O : Oracle) :
    ∀ (scan : List Int) (sk : Nat) (a : Assignment) (sk' : Nat),
      findFreeWorm g remaining O scan sk = (some a, sk') →
      ∃ w : Worm, g.findWorm a.id = some w ∧
        checkSelfBlock g (orientCells w a.reverse) a.dir = false ∧
        isBlockedBySet g a.id ((orientCells w a.reverse).headD ⟨0, 0⟩) a.dir remaining
          = false := by
  intro scan
  induction scan with
  | nil =>
    intro sk a sk' h
    exact absurd h (by simp [findFreeWorm])
  | cons id rest ih =>
    intro sk a sk' h
    rw [show findFreeWorm g remaining O (id :: rest) sk =
        (match g.findWorm id with
        | none => findFreeWorm g remaining O rest sk
        | some w =>
          match tryDirs g id w.cells (O.shuffle sk) remaining with
          | some d => (some ⟨id, d, false⟩, sk + 1)
          | none =>
            match tryDirs g id w.cells.reverse (O.shuffle (sk + 1)) remaining with
            | some d => (some ⟨id, d, true⟩, sk + 2)
            | none => findFreeWorm g remaining O rest (sk + 2)) from rfl] at h
    rcases hfind : g.findWorm id with _ | w
    · rw [hfind] at h
      simp only [] at h
      exact ih sk a sk' h
    · rw [hfind] at h
      simp only [] at h
      rcases ht1 : tryDirs g id w.cells (O.shuffle sk) remaining with _ | d1
      · rw [ht1] at h
        simp only [] at h
        rcases ht2 : tryDirs g id w.cells.reverse (O.shuffle (sk + 1)) remaining with _ | d2
        · rw [ht2] at h
          simp only [] at h
          exact ih (sk + 2) a sk' h
        · rw [ht2] at h
          simp only [] at h
          injection h with h1 h2
          injection h1 with h1
          subst h1
          refine ⟨w, hfind, ?_⟩
          have := tryDirs_some g id w.cells.reverse (O.shuffle (sk + 1)) remaining d2 ht2
          exact this
      · rw [ht1] at h
        simp only [] at h
        injection h with h1 h2
        injection h1 with h1
        subst h1
        refine ⟨w, hfind, ?_⟩
        have := tryDirs_some g id w.cells (O.shuffle sk) remaining d1 ht1
        exact this

/-- `findFreeWorm` only returns ids drawn from its scan list. -/
theorem findFreeWorm_mem (g : LogicalGrid) (remaining : List Int) (O : Oracle) :
    ∀ (scan : List Int) (sk : Nat) (a : Assignment) (sk' : Nat),
      findFreeWorm g remaining O scan sk = (some a, sk') → a.id ∈ scan := by
  intro scan
  induction scan with
  | nil =>
    intro sk a sk' h
    exact absurd h (by simp [findFreeWorm])
  | cons id rest ih =>
    intro sk a sk' h
    rw [show findFreeWorm g remaining O (id :: rest) sk =
        (match g.findWorm id with
        | none => findFreeWorm g remaining O rest sk
        | some w =>
          match tryDirs g id w.cells (O.shuffle sk) remaining with
          | some d => (some ⟨id, d, false⟩, sk + 1)
          | none =>
            match tryDirs g id w.cells.reverse (O.shuffle (sk + 1)) remaining with
            | some d => (some ⟨id, d, true⟩, sk + 2)
            | none => findFreeWorm g remaining O rest (sk + 2)) from rfl] at h
    rcases hfind : g.findWorm id with _ | w
    · rw [hfind] at h
      simp only [] at h
      exact List.mem_cons_of_mem _ (ih sk a sk' h)
    · rw [hfind] at h
      simp only [] at h
      rcases ht1 : tryDirs g id w.cells (O.shuffle sk) remaining with _ | d1
      · rw [ht1] at h
        simp only [] at h
        rcases ht2 : tryDirs g id w.cells.reverse (O.shuffle (sk + 1)) remaining with _ | d2
        · rw [ht2] at h
          simp only [] at h
          exact List.mem_cons_of_mem _ (ih (sk + 2) a sk' h)
        · rw [ht2] at h
          simp only [] at h
          injection h with h1 h2
          injection h1 with h1
          subst h1
          exact List.mem_cons_self _ _
      · rw [ht1] at h
        simp only [] at h
        injection h with h1 h2
        injection h1 with h1
        subst h1
        exact List.mem_cons_self _ _

theorem peelLoop_some (g : LogicalGrid) (O : Oracle) :
    ∀ (fuel : Nat) (remaining : List Int) (sk : Nat) (asgs : List Assignment) (sk' : Nat),
      peelLoop g O remaining sk fuel = (some asgs, sk') → Peeled g remaining asgs := by
  intro fuel
  induction fuel with
  | zero =>
    intro remaining sk asgs sk' h
    cases remaining with
    | nil =>
      rw [show peelLoop g O [] sk 0 = (some [], sk) from rfl] at h
      injection h with h1 h2
      injection h1 with h1
      subst h1
      exact Peeled.nil
    | cons i rest =>
      exact absurd h (by simp [peelLoop])
  | succ fuel ih =>
    intro remaining sk asgs sk' h
    cases remaining with
    | nil =>
      rw [show peelLoop g O [] sk (fuel + 1) = (some [], sk) from rfl] at h
      injection h with h1 h2
      injection h1 with h1
      subst h1
      exact Peeled.nil
    | cons i rest =>
      rw [show peelLoop g O (i :: rest) sk (fuel + 1) =
          (match findFreeWorm g (i :: rest) O (i :: rest) sk with
          | (none, sk2) => (none, sk2)
          | (some a, sk2) =>
            match peelLoop g O ((i :: rest).erase a.id) sk2 fuel with
            | (some asgs2, sk3) => (some (a :: asgs2), sk3)
            | (none, sk3) => (none, sk3)) from rfl] at h
      rcases hff : findFreeWorm g (i :: rest) O (i :: rest) sk with ⟨oa, sk2⟩
      rcases oa with _ | a
      · rw [hff] at h
        simp only [] at h
        exact absurd h (by simp)
      · rw [hff] at h
        simp only [] at h
        rcases hpl : peelLoop g O ((i :: rest).erase a.id) sk2 fuel with ⟨oasgs, sk3⟩
        rcases oasgs with _ | asgs2
        · rw [hpl] at h
          simp only [] at h
          exact absurd h (by simp)
        · rw [hpl] at h
          simp only [] at h
          injection h with h1 h2
          injection h1 with h1
          subst h1
          obtain ⟨w, hfind, hself, hblocked⟩ :=
            findFreeWorm_some g (i :: rest) O (i :: rest) sk a sk2 hff
          exact Peeled.cons (i :: rest) a w asgs2
            (findFreeWorm_mem g (i :: rest) O (i :: rest) sk a sk2 hff)
            hfind hself hblocked (ih _ sk2 asgs2 sk3 hpl)

theorem assignDirections_success (g : LogicalGrid) (O : Oracle) (sk : Nat)
    (g' : LogicalGrid) (asgs : List Assignment) (sk' : Nat)
    (h : assignDirectionsTopologically g O sk = (g', true, asgs, sk')) :
    Peeled g (idsOf g) asgs ∧ g' = applyAssignments g asgs := by
  unfold assignDirectionsTopologically at h
  simp only [] at h
  rcases hpl : peelLoop g O (g.worms.map (·.id)) sk (g.worms.map (·.id)).length
    with ⟨oasgs, sk2⟩
  rcases oasgs with _ | asgs2
  · rw [hpl] at h
    simp only [] at h
    injection h with h1 h2
    injection h2 with h2 h3
    exact absurd h2.symm (by simp)
  · rw [hpl] at h
    simp only [] at h
    injection h with h1 h2
    injection h2 with h2 h3
    injection h3 with h3 h4
    subst h3
    exact ⟨peelLoop_some g O _ _ sk _ _ hpl, h1.symm⟩

theorem Peeled_perm (g : LogicalGrid) :
    ∀ (remaining : List Int) (asgs : List Assignment), Peeled g remaining asgs →
      (asgs.map (·.id)).Perm remaining := by
  intro remaining asgs h
  induction h with
  | nil => exact List.Perm.refl []
  | cons remaining a w rest hmem hfind hself hblocked hrest ih =>
    show (a.id :: rest.map (·.id)).Perm remaining
    exact ((ih.cons a.id).trans (List.perm_cons_erase hmem).symm)

/-! ## Application of the recorded assignments -/

theorem find?_map_pres (f : Worm → Worm) (hf : ∀ w, (f w).id = w.id) (i : Int) :
    ∀ l : List Worm,
      (l.map f).find? (fun w => w.id == i) = Option.map f (l.find? (fun w => w.id == i)) := by
  intro l
  induction l with
  | nil => rfl
  | cons w rest ih =>
    rcases hp : (w.id == i) with _ | _
    · have e1 : List.find? (fun w => w.id == i) ((w :: rest).map f) =
          List.find? (fun w => w.id == i) (rest.map f) := by
        rw [List.map_cons]
        apply List.find?_cons_of_neg
        rw [hf w, hp]
        simp
      have e2 : List.find? (fun w => w.id == i) (w :: rest) =
          List.find? (fun w => w.id == i) rest := by
        apply List.find?_cons_of_neg
        rw [hp]
        simp
      rw [e1, e2, ih]
    · have e1 : List.find? (fun w => w.id == i) ((w :: rest).map f) = some (f w) := by
        rw [List.map_cons]
        apply List.find?_cons_of_pos
        show ((f w).id == i) = true
        rw [hf w]
        exact hp
      have e2 : List.find? (fun w => w.id == i) (w :: rest) = some w := by
        apply List.find?_cons_of_pos
        exact hp
      rw [e1, e2]
      rfl

theorem updFn_id (a : Assignment) (w : Worm) :
    ((fun w => if w.id == a.id then
      ({ w with cells := if a.reverse then w.cells.reverse else w.cells,
                direction := a.dir } : Worm)
    else w) w).id = w.id := by
  simp only []
  split <;> rfl

theorem updFn_color (a : Assignment) (w : Worm) :
    ((fun w => if w.id == a.id then
      ({ w with cells := if a.reverse then w.cells.reverse else w.cells,
                direction := a.dir } : Worm)
    else w) w).color = w.color := by
  simp only []
  split <;> rfl

theorem updFn_cells_mem (a : Assignment) (w : Worm) (p : Point) :
    (p ∈ ((fun w => if w.id == a.id then
      ({ w with cells := if a.reverse then w.cells.reverse else w.cells,
                direction := a.dir } : Worm)
    else w) w).cells) ↔ p ∈ w.cells := by
  simp only []
  split
  · show p ∈ (if a.reverse then w.cells.reverse else w.cells) ↔ _
    split
    · exact List.mem_reverse
    · exact Iff.rfl
  · exact Iff.rfl

theorem applyAssignments_cons (g : LogicalGrid) (a : Assignment) (rest : List Assignment) :
    applyAssignments g (a :: rest) =
      applyAssignments
        { g with worms := g.worms.map (fun w =>
            if w.id == a.id then
              { w with cells := if a.reverse then w.cells.reverse else w.cells,
                       direction := a.dir }
            else w) } rest := rfl

theorem findWorm_mapWorms (g : LogicalGrid) (f : Worm → Worm)
    (hf : ∀ w, (f w).id = w.id) (i : Int) :
    LogicalGrid.findWorm { g with worms := g.worms.map f } i = Option.map f (g.findWorm i) := by
  unfold LogicalGrid.findWorm
  exact find?_map_pres f hf i g.worms

theorem applyAssignments_frame (asgs : List Assignment) :
    ∀ g : LogicalGrid,
      (applyAssignments g asgs).width = g.width ∧
      (applyAssignments g asgs).height = g.height ∧
      (applyAssignments g asgs).grid = g.grid := by
  induction asgs with
  | nil => exact fun g => ⟨rfl, rfl, rfl⟩
  | cons a rest ih =>
    intro g
    rw [applyAssignments_cons]
    exact ih _

theorem idsOf_map_pres (g : LogicalGrid) (f : Worm → Worm) (hf : ∀ w, (f w).id = w.id) :
    idsOf { g with worms := g.worms.map f } = idsOf g := by
  unfold idsOf
  show (g.worms.map f).map (fun w => w.id) = g.worms.map (fun w => w.id)
  rw [List.map_map]
  apply List.map_congr_left
  intro w _
  exact hf w

theorem idsOf_applyAssignments (asgs : List Assignment) :
    ∀ g : LogicalGrid, idsOf (applyAssignments g asgs) = idsOf g := by
  induction asgs with
  | nil => exact fun g => rfl
  | cons a rest ih =>
    intro g
    rw [applyAssignments_cons, ih, idsOf_map_pres g _ (updFn_id a)]

theorem applyAssignments_findWorm_untouched (asgs : List Assignment) :
    ∀ (g : LogicalGrid) (i : Int), i ∉ asgs.map (·.id) →
      (applyAssignments g asgs).findWorm i = g.findWorm i := by
  induction asgs with
  | nil => exact fun g i _ => rfl
  | cons a rest ih =>
    intro g i hmem
    rw [applyAssignments_cons, ih _ i (fun hc => hmem (List.mem_cons_of_mem _ hc)),
      findWorm_mapWorms g _ (updFn_id a) i]
    rcases hf : g.findWorm i with _ | w
    · rfl
    · have hwid : w.id = i := (findWorm_some g i w hf).2
      rw [Option.map_some']
      congr 1
      rw [if_neg]
      intro hc
      apply hmem
      rw [beq_iff_eq] at hc
      rw [show i = a.id from by rw [← hwid, hc]]
      exact List.mem_cons_self _ _

theorem applyAssignments_findWorm (asgs : List Assignment)
    (hnodup : (asgs.map (·.id)).Nodup) :
    ∀ (g : LogicalGrid) (a : Assignment), a ∈ asgs →
      ∀ w : Worm, g.findWorm a.id = some w →
        (applyAssignments g asgs).findWorm a.id =
          some ⟨w.id, orientCells w a.reverse, a.dir, w.color⟩ := by
  induction asgs with
  | nil =>
    intro g a ha
    exact absurd ha (by simp)
  | cons a0 rest ih =>
    intro g a ha w hfind
    have hwid : w.id = a.id := (findWorm_some g a.id w hfind).2
    have hnodup2 : (rest.map (·.id)).Nodup := by
      rw [List.map_cons] at hnodup
      exact (List.nodup_cons.mp hnodup).2
    rcases List.mem_cons.mp ha with ha2 | ha2
    · subst ha2
      have hnotin : a.id ∉ rest.map (·.id) := by
        rw [List.map_cons] at hnodup
        exact (List.nodup_cons.mp hnodup).1
      rw [applyAssignments_cons, applyAssignments_findWorm_untouched rest _ a.id hnotin,
        findWorm_mapWorms g _ (updFn_id a) a.id, hfind, Option.map_some']
      congr 1
      rw [if_pos (show (w.id == a.id) = true from by rw [hwid]; exact beq_self_eq_true a.id)]
      unfold orientCells
      rfl
    · have hne : a.id ≠ a0.id := by
        rw [List.map_cons] at hnodup
        intro hc
        exact (List.nodup_cons.mp hnodup).1
          (hc ▸ List.mem_map_of_mem (·.id) ha2)
      rw [applyAssignments_cons]
      apply ih hnodup2 _ a ha2
      rw [findWorm_mapWorms g _ (updFn_id a0) a.id, hfind, Option.map_some']
      congr 1
      rw [if_neg]
      intro hc
      rw [beq_iff_eq] at hc
      exact hne (by rw [← hwid, hc])

/-- One application step preserves well-formedness: the update keeps each
worm's id, color and cell *set*. -/
theorem gridWF_applyOne (g : LogicalGrid) (a : Assignment) (hWF : GridWF g) :
    GridWF { g with worms := g.worms.map (fun w =>
      if w.id == a.id then
        { w with cells := if a.reverse then w.cells.reverse else w.cells,
                 direction := a.dir }
      else w) } := by
  obtain ⟨hlen, hrowlen, hw0, hh0, hnodup, hworms, hcorr⟩ := hWF
  have hOwn : ∀ p : Point,
      ownersAt { g with worms := g.worms.map (fun w =>
        if w.id == a.id then
          ({ w with cells := if a.reverse then w.cells.reverse else w.cells,
                    direction := a.dir } : Worm)
        else w) } p = ownersAt g p := by
    intro p
    unfold ownersAt
    show ((g.worms.map (fun w =>
        if w.id == a.id then
          ({ w with cells := if a.reverse then w.cells.reverse else w.cells,
                    direction := a.dir } : Worm)
        else w)).filter
      (fun w => w.cells.any fun c => c.x == p.x && c.y == p.y)).map (fun w => w.id) =
      (g.worms.filter (fun w => w.cells.any fun c => c.x == p.x && c.y == p.y)).map
        (fun w => w.id)
    rw [List.filter_map, List.map_map]
    have h1 : ∀ w ∈ g.worms,
        ((fun w : Worm => w.cells.any fun c => c.x == p.x && c.y == p.y) ∘ (fun w =>
          if w.id == a.id then
            ({ w with cells := if a.reverse then w.cells.reverse else w.cells,
                      direction := a.dir } : Worm)
          else w)) w = (w.cells.any fun c => c.x == p.x && c.y == p.y) := by
      intro w _
      show (((fun w => if w.id == a.id then
          ({ w with cells := if a.reverse then w.cells.reverse else w.cells,
                    direction := a.dir } : Worm)
        else w) w).cells.any fun c => c.x == p.x && c.y == p.y) = _
      by_cases hm : p ∈ w.cells
      · rw [(point_any_iff _ p).mpr ((updFn_cells_mem a w p).mpr hm),
          (point_any_iff _ p).mpr hm]
      · have e1 : (((fun w => if w.id == a.id then
            ({ w with cells := if a.reverse then w.cells.reverse else w.cells,
                      direction := a.dir } : Worm)
          else w) w).cells.any fun c => c.x == p.x && c.y == p.y) = false := by
          rw [← Bool.not_eq_true]
          intro hc
          exact hm ((updFn_cells_mem a w p).mp ((point_any_iff _ p).mp hc))
        have e2 : (w.cells.any fun c => c.x == p.x && c.y == p.y) = false := by
          rw [← Bool.not_eq_true]
          intro hc
          exact hm ((point_any_iff _ p).mp hc)
        rw [e1, e2]
    rw [List.filter_congr h1]
    apply List.map_congr_left
    intro w _
    exact updFn_id a w
  refine ⟨hlen, hrowlen, hw0, hh0, ?_, ?_, ?_⟩
  · show (idsOf { g with worms := g.worms.map _ }).Nodup
    rw [idsOf_map_pres g _ (updFn_id a)]
    exact hnodup
  · intro u hu
    obtain ⟨w, hw, hupd⟩ := List.mem_map.mp hu
    obtain ⟨k1, k2, k3⟩ := hworms w hw
    subst hupd
    refine ⟨by rw [updFn_id a w]; exact k1, ?_, ?_⟩
    · intro hc
      apply k2
      rcases hz : w.cells with _ | ⟨c0, crest⟩
      · rfl
      · exfalso
        have hc0 : c0 ∈ w.cells := by
          rw [hz]
          exact List.mem_cons_self _ _
        have hmem := (updFn_cells_mem a w c0).mpr hc0
        rw [hc] at hmem
        exact absurd hmem (by simp)
    · intro p hp
      exact k3 p ((updFn_cells_mem a w p).mp hp)
  · intro y hy x hx
    rw [hOwn]
    exact hcorr y hy x hx

theorem gridWF_applyAssignments (asgs : List Assignment) :
    ∀ g : LogicalGrid, GridWF g → GridWF (applyAssignments g asgs) := by
  induction asgs with
  | nil => exact fun g h => h
  | cons a rest ih =>
    intro g h
    rw [applyAssignments_cons]
    exact ih _ (gridWF_applyOne g a h)

/-! ## Transport of the peel facts to the assigned grid, and replay -/

theorem getWormIdAt_congr (g g' : LogicalGrid) (hw : g'.width = g.width)
    (hh : g'.height = g.height) (hg : g'.grid = g.grid) (x y : Int) :
    g'.getWormIdAt x y = g.getWormIdAt x y := by
  unfold LogicalGrid.getWormIdAt
  rw [hw, hh, hg]

theorem isValid_congr (g g' : LogicalGrid) (hw : g'.width = g.width)
    (hh : g'.height = g.height) (x y : Int) :
    g'.isValid x y = g.isValid x y := by
  unfold LogicalGrid.isValid
  rw [hw, hh]

theorem rayFind_congr (g g' : LogicalGrid) (hit hit2 : Point → Bool) (d : Dir)
    (hv : ∀ x y : Int, g'.isValid x y = g.isValid x y)
    (hhit : ∀ q : Point, hit2 q = hit q) :
    ∀ (fuel : Nat) (p : Point), rayFind g' hit2 d p fuel = rayFind g hit d p fuel := by
  intro fuel
  induction fuel with
  | zero => intro p; rfl
  | succ fuel ih =>
    intro p
    show (if g'.isValid (d.step p).x (d.step p).y then
        (if hit2 (d.step p) then some (d.step p) else rayFind g' hit2 d (d.step p) fuel)
      else none) =
      (if g.isValid (d.step p).x (d.step p).y then
        (if hit (d.step p) then some (d.step p) else rayFind g hit d (d.step p) fuel)
      else none)
    rw [hv, hhit, ih]

theorem rayFuel_congr (g g' : LogicalGrid) (hw : g'.width = g.width)
    (hh : g'.height = g.height) (x y : Int) : rayFuel g' x y = rayFuel g x y := by
  unfold rayFuel
  rw [hw, hh]

theorem isBlockedBySet_congr (g g' : LogicalGrid) (hw : g'.width = g.width)
    (hh : g'.height = g.height) (hg : g'.grid = g.grid) (sid : Int) (head : Point)
    (d : Dir) (remaining : List Int) :
    isBlockedBySet g' sid head d remaining = isBlockedBySet g sid head d remaining := by
  unfold isBlockedBySet
  rw [rayFuel_congr g g' hw hh, rayFind_congr g g' _ _ d
    (isValid_congr g g' hw hh)
    (fun q => by rw [getWormIdAt_congr g g' hw hh hg])]

/-- A cell reading a live worm's id lies on that worm's body. -/
theorem gridWF_read_to_mem (g : LogicalGrid) (hWF : GridWF g) (w : Worm)
    (hw : w ∈ g.worms) (x y : Int) (hread : g.getWormIdAt x y = w.id) :
    (⟨x, y⟩ : Point) ∈ w.cells := by
  have hid0 : 0 ≤ w.id := (hWF.2.2.2.2.2.1 w hw).1
  by_cases hinb : cellInB g.width g.height ⟨x, y⟩
  · rcases gridWF_corr g hWF x y hinb with hc | hc
    · have hm : w.id ∈ ownersAt g ⟨x, y⟩ := by
        rw [hc, hread]
        exact List.mem_singleton_self _
      obtain ⟨u, hu, hid, hp⟩ := (mem_ownersAt _ _ _).mp hm
      have : u = w := List.inj_on_of_nodup_map hWF.2.2.2.2.1 hu hw hid
      exact this ▸ hp
    · rw [hc.2] at hread
      omega
  · rw [getWormIdAt_oob g x y hinb] at hread
    omega

/-- Transport: after applying the full assignment list, each committed
worm carries its oriented cells and final direction, and its
blocked-by-`remaining` test still passes. -/
theorem peeled_to_peeledA (g : LogicalGrid) (asgsAll : List Assignment)
    (hnodupAll : (asgsAll.map (·.id)).Nodup) :
    ∀ (remaining : List Int) (asgs : List Assignment),
      Peeled g remaining asgs → (∀ a ∈ asgs, a ∈ asgsAll) →
      PeeledA (applyAssignments g asgsAll) remaining asgs := by
  intro remaining asgs h
  induction h with
  | nil => exact fun _ => PeeledA.nil
  | cons remaining a w rest hmem hfind hself hblocked hrest ih =>
    intro hsub
    have hfindA := applyAssignments_findWorm asgsAll hnodupAll g a
      (hsub a (List.mem_cons_self a rest)) w hfind
    obtain ⟨hfw, hfh, hfg⟩ := applyAssignments_frame asgsAll g
    refine PeeledA.cons remaining a ⟨w.id, orientCells w a.reverse, a.dir, w.color⟩ rest
      hmem hfindA rfl ?_ (ih (fun a2 ha2 => hsub a2 (List.mem_cons_of_mem a ha2)))
    rw [isBlockedBySet_congr g _ hfw hfh hfg]
    exact hblocked

/-- Replaying `tryRemoveWorm` along the commitment order on the assigned
grid succeeds call by call and empties the board. -/
theorem replay_removeAll (gA : LogicalGrid) (hWFA : GridWF gA) :
    ∀ (asgs : List Assignment) (remaining : List Int) (m : GameManager),
      PeeledA gA remaining asgs → remaining.Nodup →
      GridWF m.logicGrid →
      restrictedTo gA m.logicGrid remaining →
      (removeAll m (asgs.map (·.id))).2 = true ∧
      (removeAll m (asgs.map (·.id))).1.logicGrid.worms = [] ∧
      (∀ x y : Int, (removeAll m (asgs.map (·.id))).1.logicGrid.getWormIdAt x y = -1) := by
  intro asgs
  induction asgs with
  | nil =>
    intro remaining m hP hnd hWF hres
    cases hP
    obtain ⟨hrw, hrh, hrworms, hrread⟩ := hres
    refine ⟨rfl, ?_, ?_⟩
    · show m.logicGrid.worms = []
      rw [hrworms]
      apply List.filter_eq_nil_iff.mpr
      intro u _
      simp
    · intro x y
      show m.logicGrid.getWormIdAt x y = -1
      rw [hrread x y, if_neg]
      simp
  | cons a rest ih =>
    intro remaining m hP hnd hWF hres
    rcases hP with _ | ⟨_, _, w, _, hmem, hfindA, hdir, hblocked, hrestP⟩
    obtain ⟨hrw, hrh, hrworms, hrread⟩ := hres
    obtain ⟨hwmemA, hwid⟩ := findWorm_some gA a.id w hfindA
    have hwmem : w ∈ m.logicGrid.worms := by
      rw [hrworms]
      apply List.mem_filter.mpr
      exact ⟨hwmemA, by rw [decide_eq_true_eq, hwid]; exact hmem⟩
    have hfind : m.logicGrid.findWorm a.id = some w := by
      rw [← hwid]
      exact findWorm_of_mem m.logicGrid hWF.2.2.2.2.1 w hwmem
    have hnotmemerase : a.id ∉ remaining.erase a.id := by
      intro hc
      exact absurd ((List.Nodup.mem_erase_iff hnd).mp hc).1 (by simp)
    have hclear : ClearRay m.logicGrid w.headPt w.direction a.id := by
      rw [hdir]
      intro k hk1 hkval
      have hkvalA : ∀ j : Nat, 1 ≤ j → j ≤ k →
          gA.isValid (rayPos w.headPt a.dir j).x (rayPos w.headPt a.dir j).y = true := by
        intro j hj1 hj2
        rw [← isValid_congr gA m.logicGrid hrw hrh]
        exact hkval j hj1 hj2
      have hfuel : k ≤ rayFuel gA w.headPt.x w.headPt.y :=
        validRun_le_fuel gA w.headPt a.dir k (hkvalA k hk1 (Nat.le_refl k))
      have hmemC := rayPos_mem_rayCells gA a.dir _ w.headPt k hk1 hfuel hkvalA
      have hfoot := isBlockedBySet_false_clear gA a.id w.headPt a.dir remaining hblocked
        _ hmemC
      set q := rayPos w.headPt a.dir k
      have hcur : m.logicGrid.getWormIdAt q.x q.y =
          if gA.getWormIdAt q.x q.y ∈ remaining then gA.getWormIdAt q.x q.y else -1 :=
        hrread q.x q.y
      by_cases hin : gA.getWormIdAt q.x q.y ∈ remaining
      · rw [hcur, if_pos hin]
        by_cases h2 : gA.getWormIdAt q.x q.y = a.id
        · exact Or.inr h2
        · by_cases h1 : gA.getWormIdAt q.x q.y = -1
          · exact Or.inl h1
          · exact absurd ⟨h1, h2, hin⟩ hfoot
      · rw [hcur, if_neg hin]
        exact Or.inl rfl
    have hblk : getRaycastBlockers m.logicGrid w.headPt.x w.headPt.y w.direction a.id
        = [] := by
      apply (getRaycastBlockers_nil_iff m.logicGrid w.headPt.x w.headPt.y
        w.direction a.id).mpr
      cases hhp : w.headPt
      rw [hhp] at hclear
      exact hclear
    have htry : m.tryRemoveWorm a.id =
        ({ m with logicGrid := m.logicGrid.removeWorm a.id }, true) := by
      unfold GameManager.tryRemoveWorm
      rw [hfind]
      simp only [hblk]
      rfl
    obtain ⟨hsw, hsh, hsworms, hsread, hsWF⟩ :=
      (removeWorm_spec m.logicGrid a.id hWF).2 w hfind
    have hres2 : restrictedTo gA (m.logicGrid.removeWorm a.id) (remaining.erase a.id) := by
      refine ⟨hsw.trans hrw, hsh.trans hrh, ?_, ?_⟩
      · rw [hsworms, hrworms, List.filter_filter]
        apply List.filter_congr
        intro u _
        by_cases hu1 : u.id = a.id
        · have h2 : u.id ∉ remaining.erase a.id := by rw [hu1]; exact hnotmemerase
          rw [decide_eq_false h2, hu1]
          simp
        · by_cases hu2 : u.id ∈ remaining
          · have h3 : u.id ∈ remaining.erase a.id :=
              (List.Nodup.mem_erase_iff hnd).mpr ⟨hu1, hu2⟩
            rw [decide_eq_true h3, decide_eq_true hu2]
            simp [hu1]
          · have h3 : u.id ∉ remaining.erase a.id := fun hc =>
              hu2 ((List.Nodup.mem_erase_iff hnd).mp hc).2
            rw [decide_eq_false h3, decide_eq_false hu2]
            simp
      · intro x y
        rw [hsread x y]
        by_cases hp : (⟨x, y⟩ : Point) ∈ w.cells
        · rw [if_pos hp]
          have hA : gA.getWormIdAt x y = a.id := by
            rw [← hwid]
            exact gridWF_read_of_mem gA hWFA w hwmemA ⟨x, y⟩ hp
          rw [hA, if_neg hnotmemerase]
        · rw [if_neg hp, hrread x y]
          have hne : gA.getWormIdAt x y ≠ a.id := by
            intro hc
            exact hp (gridWF_read_to_mem gA hWFA w hwmemA x y (by rw [hc, hwid]))
          by_cases hin : gA.getWormIdAt x y ∈ remaining
          · rw [if_pos hin, if_pos ((List.Nodup.mem_erase_iff hnd).mpr ⟨hne, hin⟩)]
          · rw [if_neg hin, if_neg (fun hc =>
              hin ((List.Nodup.mem_erase_iff hnd).mp hc).2)]
    have hstep : removeAll m (a.id :: rest.map (·.id)) =
        ((removeAll { m with logicGrid := m.logicGrid.removeWorm a.id }
          (rest.map (·.id))).1,
         true && (removeAll { m with logicGrid := m.logicGrid.removeWorm a.id }
          (rest.map (·.id))).2) := by
      show (let t := m.tryRemoveWorm a.id
            let t2 := removeAll t.1 (rest.map (·.id))
            (t2.1, t.2 && t2.2)) = _
      rw [htry]
    obtain ⟨ih1, ih2, ih3⟩ := ih (remaining.erase a.id)
      { m with logicGrid := m.logicGrid.removeWorm a.id }
      hrestP (hnd.erase a.id) hsWF hres2
    rw [show (a :: rest).map (·.id) = a.id :: rest.map (·.id) from rfl, hstep]
    exact ⟨by rw [Bool.true_and]; exact ih1, ih2, ih3⟩

/-! ## Phase 1 produces well-formed grids -/

theorem getD_mem_of_lt {α : Type} :
    ∀ (l : List α) (i : Nat) (d : α), i < l.length → l.getD i d ∈ l := by
  intro l
  induction l with
  | nil => intro i d h; exact absurd h (by simp)
  | cons a t ih =>
    intro i d h
    cases i with
    | zero => exact List.mem_cons_self a t
    | succ j =>
      exact List.mem_cons_of_mem a (ih j d (by simpa using h))

theorem mem_emptyCellsList (g : LogicalGrid) (p : Point)
    (hp : p ∈ emptyCellsList g) : g.isEmpty p.x p.y = true := by
  unfold emptyCellsList at hp
  rw [List.mem_flatMap] at hp
  obtain ⟨y, _, hp2⟩ := hp
  rw [List.mem_filterMap] at hp2
  obtain ⟨x, _, hp3⟩ := hp2
  by_cases he : g.isEmpty x y = true
  · rw [if_pos he] at hp3
    obtain rfl := Option.some.inj hp3
    exact he
  · rw [if_neg he] at hp3
    exact absurd hp3 (by simp)

theorem growWorm_append (g : LogicalGrid) (O : Oracle) :
    ∀ (steps : Nat) (cells : List Point) (cur : Point) (sk : Nat),
      ∃ suffix, (growWorm g O steps cells cur sk).1 = cells ++ suffix := by
  intro steps
  induction steps with
  | zero =>
    intro cells cur sk
    exact ⟨[], by simp [growWorm]⟩
  | succ n ih =>
    intro cells cur sk
    simp only [growWorm]
    rcases hf : (O.shuffle sk).find? (fun d =>
        g.isValid (d.step cur).x (d.step cur).y && g.isEmpty (d.step cur).x (d.step cur).y &&
          !(cells.any (fun c => c.x == (d.step cur).x && c.y == (d.step cur).y)))
      with _ | d
    · rw [hf]
      exact ⟨[], by simp⟩
    · rw [hf]
      simp only []
      obtain ⟨s, hs⟩ := ih (cells ++ [d.step cur]) (d.step cur) (sk + 1)
      exact ⟨[d.step cur] ++ s, by rw [hs, List.append_assoc]⟩

theorem growWorm_empty (g : LogicalGrid) (O : Oracle) :
    ∀ (steps : Nat) (cells : List Point) (cur : Point) (sk : Nat),
      (∀ p ∈ cells, g.isEmpty p.x p.y = true) →
      ∀ p ∈ (growWorm g O steps cells cur sk).1, g.isEmpty p.x p.y = true := by
  intro steps
  induction steps with
  | zero =>
    intro cells cur sk h
    exact h
  | succ n ih =>
    intro cells cur sk h
    simp only [growWorm]
    rcases hf : (O.shuffle sk).find? (fun d =>
        g.isValid (d.step cur).x (d.step cur).y && g.isEmpty (d.step cur).x (d.step cur).y &&
          !(cells.any (fun c => c.x == (d.step cur).x && c.y == (d.step cur).y)))
      with _ | d
    · rw [hf]
      exact h
    · rw [hf]
      simp only []
      have hd := List.find?_some hf
      have hde : g.isEmpty (d.step cur).x (d.step cur).y = true := by
        simp only [Bool.and_eq_true] at hd
        exact hd.1.2
      apply ih
      intro p hp
      rcases List.mem_append.mp hp with h1 | h2
      · exact h p h1
      · rw [List.mem_singleton] at h2
        rw [h2]
        exact hde

/-- The Phase 1 loop invariant: well-formedness, fixed dimensions, and
every live id strictly below the id counter. -/
theorem fillLoop_wf (td : ℚ) (O : Oracle) :
    ∀ (fuel : Nat) (st : FillState),
      GridWF st.grid → 0 ≤ st.nextId → (∀ u ∈ st.grid.worms, u.id < st.nextId) →
      GridWF (fillLoop td O st fuel).grid ∧
      (fillLoop td O st fuel).grid.width = st.grid.width ∧
      (fillLoop td O st fuel).grid.height = st.grid.height ∧
      0 ≤ (fillLoop td O st fuel).nextId ∧
      (∀ u ∈ (fillLoop td O st fuel).grid.worms,
        u.id < (fillLoop td O st fuel).nextId) := by
  intro fuel
  induction fuel with
  | zero =>
    intro st h1 h2 h3
    exact ⟨h1, rfl, rfl, h2, h3⟩
  | succ n ih =>
    intro st h1 h2 h3
    simp only [fillLoop]
    split
    · exact ⟨h1, rfl, rfl, h2, h3⟩
    · split
      · exact ⟨h1, rfl, rfl, h2, h3⟩
      · rename_i hlen
        have hlenpos : 0 < (emptyCellsList st.grid).length := Nat.pos_of_ne_zero hlen
        set start := (emptyCellsList st.grid).getD
          (O.pick st.pk % (emptyCellsList st.grid).length) (⟨0, 0⟩ : Point) with hstartdef
        have hstart : start ∈ emptyCellsList st.grid :=
          getD_mem_of_lt _ _ _ (Nat.mod_lt _ hlenpos)
        have hstartE := mem_emptyCellsList st.grid _ hstart
        set gw := growWorm st.grid O (O.pick (st.pk + 2) % 4 + 5 - 1) [start] start st.sk
          with hgw
        have hcne : gw.1 ≠ [] := by
          obtain ⟨s, hs⟩ := growWorm_append st.grid O (O.pick (st.pk + 2) % 4 + 5 - 1)
            [start] start st.sk
          rw [hgw, hs]
          simp
        have hcempty : ∀ p ∈ gw.1, st.grid.isEmpty p.x p.y = true := by
          rw [hgw]
          apply growWorm_empty
          intro p hp
          rw [List.mem_singleton] at hp
          rw [hp]
          exact hstartE
        split
        · refine ih _ h1 ?_ ?_
          · show (0 : Int) ≤ st.nextId + 1
            omega
          · intro u hu
            have := h3 u hu
            show u.id < st.nextId + 1
            omega
        · have hpre : AddPre st.grid ⟨st.nextId, gw.1, .UP,
              PALETTE.getD (O.pick (st.pk + 1) % PALETTE.length) 0⟩ := by
            refine ⟨h2, ?_, hcne, hcempty⟩
            intro hc
            unfold idsOf at hc
            rw [List.mem_map] at hc
            obtain ⟨u, hu, hid⟩ := hc
            have hid2 : u.id = st.nextId := hid
            have := h3 u hu
            omega
          obtain ⟨_, haw, hah, haworms, _, haWF⟩ :=
            addWorm_spec st.grid _ h1 hpre
          have hidsA : ∀ u ∈ (st.grid.addWorm ⟨st.nextId, gw.1, .UP,
              PALETTE.getD (O.pick (st.pk + 1) % PALETTE.length) 0⟩).1.worms,
              u.id < st.nextId + 1 := by
            intro u hu
            rw [haworms, List.mem_append] at hu
            rcases hu with hu | hu
            · have := h3 u hu
              omega
            · rw [List.mem_singleton] at hu
              rw [hu]
              show st.nextId < st.nextId + 1
              omega
          have hnn : (0 : Int) ≤ st.nextId + 1 := by omega
          obtain ⟨ih1, ih2, ih3, ih4, ih5⟩ := ih
            { grid := (st.grid.addWorm ⟨st.nextId, gw.1, .UP,
                PALETTE.getD (O.pick (st.pk + 1) % PALETTE.length) 0⟩).1,
              nextId := st.nextId + 1, attempts := st.attempts + 1,
              pk := st.pk + 3, sk := gw.2 }
            haWF hnn hidsA
          exact ⟨ih1, ih2.trans haw, ih3.trans hah, ih4, ih5⟩

/-! ## generateLevel success inversion -/

/-- What a successful `generateLevel` run consists of: some retry
iteration whose fill result `st` peels successfully into the returned
assignment list, with the returned manager carrying the assigned grid and
the snapshot serialized from it. -/
theorem genLoop_success (td : ℚ) (mc : Nat) (O : Oracle) :
    ∀ (fuel : Nat) (m : GameManager) (pk sk : Nat) (r : GenResult),
      genLoop td mc O m pk sk fuel = r → r.ok = true →
      ∃ (pk1 sk1 : Nat) (g1 : LogicalGrid) (sk2 : Nat),
        (let st := fillLoop td O ⟨LogicalGrid.new m.gridWidth m.gridHeight, 0, 0, pk1, sk1⟩ 5000
         assignDirectionsTopologically st.grid O st.sk = (g1, true, r.asgs, sk2) ∧
         r.fillAttempts = st.attempts) ∧
        ¬(mc > 0 ∧ g1.worms.length < mc) ∧
        r.manager.gridWidth = m.gridWidth ∧
        r.manager.gridHeight = m.gridHeight ∧
        r.manager.logicGrid = g1 ∧
        r.manager.initialLevelJson =
          .parsed ⟨some m.gridWidth, some m.gridHeight,
            some (g1.worms.map (fun w => ⟨w.id, w.cells, w.direction, w.color⟩))⟩ := by
  intro fuel
  induction fuel with
  | zero =>
    intro m pk sk r hr hok
    rw [genLoop] at hr
    rw [← hr] at hok
    exact absurd hok (by simp)
  | succ fuel ih =>
    intro m pk sk r hr hok
    simp only [genLoop] at hr
    set st := fillLoop td O ⟨(m.reset).logicGrid, 0, 0, pk, sk⟩ 5000 with hst
    rcases he : assignDirectionsTopologically st.grid O st.sk with ⟨g1, ok1, asgs1, sk2⟩
    rw [he] at hr
    simp only [] at hr
    by_cases hok2 : ok1 = true
    · rw [if_pos hok2] at hr
      by_cases hmc : mc > 0 ∧ g1.worms.length < mc
      · rw [if_pos hmc] at hr
        obtain ⟨pk1, sk1, g2, sk3, h1, h2, h3, h4, h5, h6⟩ := ih _ _ _ _ hr hok
        exact ⟨pk1, sk1, g2, sk3, h1, h2, h3, h4, h5, h6⟩
      · rw [if_neg hmc] at hr
        subst hr
        subst hok2
        have harg : (⟨(m.reset).logicGrid, 0, 0, pk, sk⟩ : FillState) =
            ⟨LogicalGrid.new m.gridWidth m.gridHeight, 0, 0, pk, sk⟩ := rfl
        have hst2 : st = fillLoop td O
            ⟨LogicalGrid.new m.gridWidth m.gridHeight, 0, 0, pk, sk⟩ 5000 := by
          rw [hst, harg]
        refine ⟨pk, sk, g1, sk2, ⟨?_, ?_⟩, hmc, rfl, rfl, rfl, rfl⟩
        · rw [← hst2]
          exact he
        · rw [← hst2]
    · rw [if_neg hok2] at hr
      obtain ⟨pk1, sk1, g2, sk3, h1, h2, h3, h4, h5, h6⟩ := ih _ _ _ _ hr hok
      exact ⟨pk1, sk1, g2, sk3, h1, h2, h3, h4, h5, h6⟩

/-! ## C10: fresh manager exports the empty string -/

/-- **C10.** On a freshly constructed `GameManager`, `exportLevel()` is the
empty string — not a serialized snapshot of the empty grid and not an
error. -/
theorem C10_fresh_export (w h : Int) :
    (GameManager.new w h).exportLevel = JsonStr.emptyStr ∧
      ∀ r : RawLevel, (GameManager.new w h).exportLevel ≠ JsonStr.parsed r := by
  exact ⟨rfl, fun r hr => JsonStr.noConfusion hr⟩

/-! ## C9: snapshot immutability -/

/-- **C9.** After a successful `generateLevel`, `exportLevel()` returns the
snapshot serialized at the moment of success, and any subsequent sequence
of `tryRemoveWorm` calls (successful or not) leaves `exportLevel()`
unchanged. -/
theorem C9_snapshot_immutable (m : GameManager) (td : ℚ) (mc : Nat) (O : Oracle)
    (r : GenResult) (hr : m.generateLevelAux td mc O = r) (hok : r.ok = true) :
    r.manager.exportLevel = JsonStr.parsed r.manager.serializeLevel ∧
      ∀ ids : List Int, (removeAll r.manager ids).1.exportLevel = r.manager.exportLevel := by
  obtain ⟨pk1, sk1, g1, sk2, _, _, hw, hh, hg, hjson⟩ :=
    genLoop_success td mc O 10000 m 0 0 r hr hok
  constructor
  · show r.manager.initialLevelJson = JsonStr.parsed r.manager.serializeLevel
    rw [hjson]
    unfold GameManager.serializeLevel
    rw [hw, hh, hg]
  · intro ids
    exact (removeAll_frame ids r.manager).2.2

/-- Witness for C9: the concrete 1×5 generation run `R15` succeeds and the
theorem applies to it. -/
theorem C9_snapshot_immutable_witness :
    (GameManager.new 1 5).generateLevelAux q95 0 O15 = R15 ∧ R15.ok = true ∧
      (R15.manager.exportLevel = JsonStr.parsed R15.manager.serializeLevel ∧
        ∀ ids : List Int, (removeAll R15.manager ids).1.exportLevel = R15.manager.exportLevel) :=
  ⟨rfl, by decide, C9_snapshot_immutable (GameManager.new 1 5) q95 0 O15 R15 rfl (by decide)⟩

/-! ## C5: importLevel failure atomicity -/

/-- **C5, counterexample.**  The structurally parseable snapshot `jC5`
(valid `w = 2`, `h = 2`, one worm with out-of-bounds cell `(0, 5)`) makes
`importLevel` return `false` on a fresh 1×1 manager, yet the manager's
grid width has already been overwritten to 2: the failure is *not*
mutation-free.  (`jC5` is the parse of the real input string
`{"w":2,"h":2,"worms":[{"id":0,"color":0,"dir":0,"cells":[{"x":0,"y":5}]}]}`.) -/
theorem C5_counterexample :
    ((GameManager.new 1 1).importLevel jC5).2 = false ∧
      ((GameManager.new 1 1).importLevel jC5).1.gridWidth ≠ (GameManager.new 1 1).gridWidth := by
  decide

/-- **C5, amended.**  Whenever `importLevel(json)` returns `false`, the
stored initial-level snapshot is unchanged; and when the failure comes
from the pre-commit validation — an unparseable input (including the empty
string) or a missing/falsy `w`, `h` or `worms` field — the whole manager
(dimensions, grid, snapshot) is unchanged.  Failures occurring after the
field check (negative dimensions or a worm cell whose row write throws)
leave the dimensions and possibly a partially rebuilt grid behind, as the
counterexample shows. -/
theorem C5_amended_import_failure (m m' : GameManager) (j : JsonStr)
    (h : m.importLevel j = (m', false)) :
    m'.initialLevelJson = m.initialLevelJson ∧
      ((j = .emptyStr ∨ j = .malformed ∨
        ∃ r, j = .parsed r ∧
          (truthyInt r.w = false ∨ truthyInt r.h = false ∨ r.worms.isNone = true)) →
        m' = m) := by
  cases j with
  | emptyStr =>
    simp only [GameManager.importLevel] at h
    injection h with h1 h2
    subst h1
    exact ⟨rfl, fun _ => rfl⟩
  | malformed =>
    simp only [GameManager.importLevel] at h
    injection h with h1 h2
    subst h1
    exact ⟨rfl, fun _ => rfl⟩
  | parsed data =>
    simp only [GameManager.importLevel] at h
    by_cases hfields : (!truthyInt data.w || !truthyInt data.h || data.worms.isNone) = true
    · rw [if_pos hfields] at h
      injection h with h1 h2
      subst h1
      exact ⟨rfl, fun _ => rfl⟩
    · rw [if_neg hfields] at h
      constructor
      · by_cases hneg : data.w.getD 0 < 0 ∨ data.h.getD 0 < 0
        · rw [if_pos hneg] at h
          injection h with h1 h2
          rw [← h1]
        · rw [if_neg hneg] at h
          rcases hiw : importWorms
              ({ m with gridWidth := data.w.getD 0,
                        gridHeight := data.h.getD 0 } : GameManager).reset.logicGrid
              (data.worms.getD []) with ⟨g', ok⟩
          rw [hiw] at h
          cases ok with
          | true =>
            injection h with h1 h2
            cases h2
          | false =>
            injection h with h1 h2
            rw [← h1]
            rfl
      · rintro (hj | hj | ⟨r, hj, hr⟩)
        · simp at hj
        · simp at hj
        · exfalso
          cases hj
          simp only [Bool.or_eq_true, Bool.not_eq_true'] at hfields
          push_neg at hfields
          rcases hr with hr | hr | hr <;> simp_all

/-- Witness for the amended C5: an unparseable input fails and leaves the
manager untouched. -/
theorem C5_amended_import_failure_witness :
    (GameManager.new 1 1).importLevel .malformed = ((GameManager.new 1 1), false) ∧
      (((GameManager.new 1 1)).initialLevelJson = (GameManager.new 1 1).initialLevelJson ∧
        ((JsonStr.malformed = .emptyStr ∨ JsonStr.malformed = .malformed ∨
          ∃ r, JsonStr.malformed = .parsed r ∧
            (truthyInt r.w = false ∨ truthyInt r.h = false ∨ r.worms.isNone = true)) →
          (GameManager.new 1 1) = (GameManager.new 1 1))) :=
  ⟨rfl, C5_amended_import_failure (GameManager.new 1 1) (GameManager.new 1 1) .malformed rfl⟩


/-! ## Shared facts about successful generation runs -/

theorem gridWF_read_live (g : LogicalGrid) (hWF : GridWF g) (x y : Int)
    (h : g.getWormIdAt x y ≠ -1) : g.getWormIdAt x y ∈ idsOf g := by
  by_cases hinb : cellInB g.width g.height ⟨x, y⟩
  · rcases gridWF_corr g hWF x y hinb with hc | hc
    · have hm : g.getWormIdAt x y ∈ ownersAt g ⟨x, y⟩ := by
        rw [hc]
        exact List.mem_singleton_self _
      obtain ⟨u, hu, hid, _⟩ := (mem_ownersAt _ _ _).mp hm
      unfold idsOf
      exact List.mem_map.mpr ⟨u, hu, hid⟩
    · exact absurd hc.2 h
  · exact absurd (getWormIdAt_oob g x y hinb) h

theorem Peeled_forall (g : LogicalGrid) :
    ∀ (remaining : List Int) (asgs : List Assignment), Peeled g remaining asgs →
      ∀ a ∈ asgs, ∃ w, g.findWorm a.id = some w ∧
        checkSelfBlock g (orientCells w a.reverse) a.dir = false := by
  intro remaining asgs h
  induction h with
  | nil =>
    intro a ha
    exact absurd ha (by simp)
  | cons remaining a w rest hmem hfind hself hblocked hrest ih =>
    intro a2 ha2
    rcases List.mem_cons.mp ha2 with rfl | h2
    · exact ⟨w, hfind, hself⟩
    · exact ih a2 h2

theorem SelfClearRay_of_dims (g g' : LogicalGrid) (hw : g'.width = g.width)
    (hh : g'.height = g.height) (cells : List Point) (d : Dir)
    (h : SelfClearRay g cells d) : SelfClearRay g' cells d := by
  intro k hk1 hkval
  apply h k hk1
  intro j hj1 hj2
  rw [← isValid_congr g g' hw hh]
  exact hkval j hj1 hj2

/-- Every successful `generateLevel` run can be replayed: removing the
worms of the returned level in Phase 2's commitment order succeeds call by
call and leaves the board empty; the commitment order is a permutation of
the level's worm ids. -/
theorem gen_replay (m : GameManager) (td : ℚ) (mc : Nat) (O : Oracle)
    (hw : 0 ≤ m.gridWidth) (hh : 0 ≤ m.gridHeight)
    (hok : (m.generateLevelAux td mc O).ok = true) :
    ((m.generateLevelAux td mc O).asgs.map (·.id)).Perm
      (idsOf (m.generateLevelAux td mc O).manager.logicGrid) ∧
    (removeAll (m.generateLevelAux td mc O).manager
      ((m.generateLevelAux td mc O).asgs.map (·.id))).2 = true ∧
    (removeAll (m.generateLevelAux td mc O).manager
      ((m.generateLevelAux td mc O).asgs.map (·.id))).1.logicGrid.worms = [] ∧
    ∀ x y : Int, (removeAll (m.generateLevelAux td mc O).manager
      ((m.generateLevelAux td mc O).asgs.map (·.id))).1.logicGrid.getWormIdAt x y = -1 := by
  obtain ⟨pk1, sk1, g1, sk2, h1, hmc, hgw, hgh, hml, hjson⟩ :=
    genLoop_success td mc O 10000 m 0 0 (m.generateLevelAux td mc O) rfl hok
  simp only [] at h1
  obtain ⟨hassign, hatt⟩ := h1
  have hWFnew : GridWF (LogicalGrid.new m.gridWidth m.gridHeight) :=
    gridWF_new _ _ hw hh
  obtain ⟨hWFst, hwst, hhst, _, _⟩ := fillLoop_wf td O 5000
    ⟨LogicalGrid.new m.gridWidth m.gridHeight, 0, 0, pk1, sk1⟩
    hWFnew (Int.le_refl 0)
    (by
      intro u hu
      exact absurd hu (by simp [LogicalGrid.new]))
  obtain ⟨hPeeled, hg1⟩ := assignDirections_success _ O _ g1
    ((m.generateLevelAux td mc O).asgs) sk2 hassign
  have hnodupSt : (idsOf (fillLoop td O
      ⟨LogicalGrid.new m.gridWidth m.gridHeight, 0, 0, pk1, sk1⟩ 5000).grid).Nodup :=
    hWFst.2.2.2.2.1
  have hperm0 := Peeled_perm _ _ _ hPeeled
  have hnodupAsgs : (((m.generateLevelAux td mc O).asgs).map (·.id)).Nodup :=
    (List.Perm.nodup_iff hperm0).mpr hnodupSt
  have hPA := peeled_to_peeledA _ _ hnodupAsgs _ _ hPeeled (fun a ha => ha)
  have hWFA : GridWF (applyAssignments (fillLoop td O
      ⟨LogicalGrid.new m.gridWidth m.gridHeight, 0, 0, pk1, sk1⟩ 5000).grid
      ((m.generateLevelAux td mc O).asgs)) :=
    gridWF_applyAssignments _ _ hWFst
  have hids := idsOf_applyAssignments ((m.generateLevelAux td mc O).asgs)
    (fillLoop td O ⟨LogicalGrid.new m.gridWidth m.gridHeight, 0, 0, pk1, sk1⟩ 5000).grid
  have hres : restrictedTo
      (applyAssignments (fillLoop td O
        ⟨LogicalGrid.new m.gridWidth m.gridHeight, 0, 0, pk1, sk1⟩ 5000).grid
        ((m.generateLevelAux td mc O).asgs))
      (applyAssignments (fillLoop td O
        ⟨LogicalGrid.new m.gridWidth m.gridHeight, 0, 0, pk1, sk1⟩ 5000).grid
        ((m.generateLevelAux td mc O).asgs))
      (idsOf (fillLoop td O
        ⟨LogicalGrid.new m.gridWidth m.gridHeight, 0, 0, pk1, sk1⟩ 5000).grid) := by
    refine ⟨rfl, rfl, ?_, ?_⟩
    · symm
      apply List.filter_eq_self.mpr
      intro u hu
      rw [decide_eq_true_eq, ← hids]
      exact List.mem_map.mpr ⟨u, hu, rfl⟩
    · intro x y
      by_cases h1 : (applyAssignments (fillLoop td O
          ⟨LogicalGrid.new m.gridWidth m.gridHeight, 0, 0, pk1, sk1⟩ 5000).grid
          ((m.generateLevelAux td mc O).asgs)).getWormIdAt x y = -1
      · rw [h1]
        split
        · rfl
        · rfl
      · have h2 := gridWF_read_live _ hWFA x y h1
        rw [hids] at h2
        rw [if_pos h2]
  obtain ⟨hr1, hr2, hr3⟩ := replay_removeAll _ hWFA ((m.generateLevelAux td mc O).asgs)
    _ ((m.generateLevelAux td mc O).manager) hPA hnodupSt
    (by rw [hml, hg1]; exact hWFA)
    (by rw [hml, hg1]; exact hres)
  refine ⟨?_, hr1, hr2, hr3⟩
  rw [hml, hg1, hids]
  exact hperm0


/-- The self-block checks of a successful run, transported to the final
grid: every worm of the returned level has a self-clear exit ray. -/
theorem gen_selfclear (m : GameManager) (td : ℚ) (mc : Nat) (O : Oracle)
    (hw : 0 ≤ m.gridWidth) (hh : 0 ≤ m.gridHeight)
    (hok : (m.generateLevelAux td mc O).ok = true) :
    ∀ u ∈ (m.generateLevelAux td mc O).manager.logicGrid.worms,
      SelfClearRay (m.generateLevelAux td mc O).manager.logicGrid u.cells u.direction := by
  obtain ⟨pk1, sk1, g1, sk2, h1, hmc, hgw, hgh, hml, hjson⟩ :=
    genLoop_success td mc O 10000 m 0 0 (m.generateLevelAux td mc O) rfl hok
  simp only [] at h1
  obtain ⟨hassign, hatt⟩ := h1
  have hWFnew := gridWF_new m.gridWidth m.gridHeight hw hh
  obtain ⟨hWFst, _, _, _, _⟩ := fillLoop_wf td O 5000
    ⟨LogicalGrid.new m.gridWidth m.gridHeight, 0, 0, pk1, sk1⟩ hWFnew (Int.le_refl 0)
    (by intro u hu; exact absurd hu (by simp [LogicalGrid.new]))
  obtain ⟨hPeeled, hg1⟩ := assignDirections_success _ O _ g1 _ sk2 hassign
  have hnodupSt : (idsOf (fillLoop td O
      ⟨LogicalGrid.new m.gridWidth m.gridHeight, 0, 0, pk1, sk1⟩ 5000).grid).Nodup :=
    hWFst.2.2.2.2.1
  have hperm0 := Peeled_perm _ _ _ hPeeled
  have hnodupAsgs := (List.Perm.nodup_iff hperm0).mpr hnodupSt
  have hids := idsOf_applyAssignments ((m.generateLevelAux td mc O).asgs)
    (fillLoop td O ⟨LogicalGrid.new m.gridWidth m.gridHeight, 0, 0, pk1, sk1⟩ 5000).grid
  intro u hu
  rw [hml, hg1] at hu ⊢
  have hnodupA : (idsOf (applyAssignments (fillLoop td O
      ⟨LogicalGrid.new m.gridWidth m.gridHeight, 0, 0, pk1, sk1⟩ 5000).grid
      ((m.generateLevelAux td mc O).asgs))).Nodup := by
    rw [hids]
    exact hnodupSt
  have hfindu := findWorm_of_mem _ hnodupA u hu
  have humem : u.id ∈ idsOf (fillLoop td O
      ⟨LogicalGrid.new m.gridWidth m.gridHeight, 0, 0, pk1, sk1⟩ 5000).grid := by
    rw [← hids]
    unfold idsOf
    exact List.mem_map.mpr ⟨u, hu, rfl⟩
  have ha : u.id ∈ ((m.generateLevelAux td mc O).asgs).map (·.id) :=
    hperm0.mem_iff.mpr humem
  obtain ⟨a, hamem, haid⟩ := List.mem_map.mp ha
  obtain ⟨w0, hfind0, hself0⟩ := Peeled_forall _ _ _ hPeeled a hamem
  have hfindA := applyAssignments_findWorm _ hnodupAsgs _ a hamem w0 hfind0
  rw [haid] at hfindA
  have hueq : u = ⟨w0.id, orientCells w0 a.reverse, a.dir, w0.color⟩ :=
    Option.some.inj (hfindu.symm.trans hfindA)
  have hSC : SelfClearRay (fillLoop td O
      ⟨LogicalGrid.new m.gridWidth m.gridHeight, 0, 0, pk1, sk1⟩ 5000).grid
      (orientCells w0 a.reverse) a.dir :=
    (checkSelfBlock_false_iff _ _ _).mp hself0
  obtain ⟨hfw, hfh, _⟩ := applyAssignments_frame ((m.generateLevelAux td mc O).asgs)
    (fillLoop td O ⟨LogicalGrid.new m.gridWidth m.gridHeight, 0, 0, pk1, sk1⟩ 5000).grid
  have hSC2 := SelfClearRay_of_dims _ _ hfw hfh _ a.dir hSC
  rw [hueq]
  exact hSC2

/-! ## C1: every successful level admits a clearing removal order -/

/-- C1: for every `GameManager` on which `generateLevel(targetDensity,
minWormCount)` returns `true` (dimensions nonnegative, as a negative
dimension makes the constructor throw in the source), there exists an
order of the generated worm ids — here Phase 2's commitment order — such
that calling `tryRemoveWorm` on each id in that order returns `true` for
every call and leaves the grid with no worms and every cell empty. -/
theorem C1_solvable_order (m : GameManager) (td : ℚ) (mc : Nat) (O : Oracle)
    (hw : 0 ≤ m.gridWidth) (hh : 0 ≤ m.gridHeight)
    (hok : (m.generateLevel td mc O).2 = true) :
    ∃ order : List Int,
      order.Perm (idsOf (m.generateLevel td mc O).1.logicGrid) ∧
      (removeAll (m.generateLevel td mc O).1 order).2 = true ∧
      (removeAll (m.generateLevel td mc O).1 order).1.logicGrid.worms = [] ∧
      ∀ x y : Int,
        (removeAll (m.generateLevel td mc O).1 order).1.logicGrid.getWormIdAt x y = -1 := by
  obtain ⟨hperm, h1, h2, h3⟩ := gen_replay m td mc O hw hh hok
  refine ⟨(m.generateLevelAux td mc O).asgs.map (·.id), hperm, ?_, ?_, ?_⟩
  · exact h1
  · exact h2
  · exact h3

/-- Witness for C1: the deterministic 1×5 run at density 0.95. -/
theorem C1_solvable_order_witness :
    0 ≤ (GameManager.new 1 5).gridWidth ∧ 0 ≤ (GameManager.new 1 5).gridHeight ∧
    ((GameManager.new 1 5).generateLevel q95 0 O15).2 = true ∧
    ∃ order : List Int,
      order.Perm (idsOf ((GameManager.new 1 5).generateLevel q95 0 O15).1.logicGrid) ∧
      (removeAll ((GameManager.new 1 5).generateLevel q95 0 O15).1 order).2 = true ∧
      (removeAll ((GameManager.new 1 5).generateLevel q95 0 O15).1 order).1.logicGrid.worms
        = [] ∧
      ∀ x y : Int, (removeAll ((GameManager.new 1 5).generateLevel q95 0 O15).1
        order).1.logicGrid.getWormIdAt x y = -1 :=
  ⟨by decide, by decide, by decide,
   C1_solvable_order (GameManager.new 1 5) q95 0 O15 (by decide) (by decide) (by decide)⟩


/-! ## C2: the removal order of a successful run -/

/-- C2 counterexample: in the 1×10 two-worm run `R2ce`, generation
succeeds, but replaying `tryRemoveWorm` in the REVERSE of Phase 2's
commitment order fails (the worm committed second sits under the one
committed first and is blocked while that one is still present); the
commitment order itself, not its reverse, is the playable order. -/
theorem C2_counterexample :
    R2ce.ok = true ∧
    (removeAll R2ce.manager ((R2ce.asgs.map (·.id)).reverse)).2 = false ∧
    (removeAll R2ce.manager (R2ce.asgs.map (·.id))).2 = true :=
  ⟨by decide, by decide, by decide⟩

/-- C2 (amended): for every successful `generateLevel` run (nonnegative
dimensions), simulating `tryRemoveWorm` calls in exactly the Phase 2
assignment order — NOT its reverse — makes every call succeed and empties
the board. -/
theorem C2_assignment_order_replay (m : GameManager) (td : ℚ) (mc : Nat) (O : Oracle)
    (hw : 0 ≤ m.gridWidth) (hh : 0 ≤ m.gridHeight)
    (hok : (m.generateLevel td mc O).2 = true) :
    (removeAll (m.generateLevel td mc O).1
      ((m.generateLevelAux td mc O).asgs.map (·.id))).2 = true ∧
    (removeAll (m.generateLevel td mc O).1
      ((m.generateLevelAux td mc O).asgs.map (·.id))).1.logicGrid.worms = [] ∧
    ∀ x y : Int, (removeAll (m.generateLevel td mc O).1
      ((m.generateLevelAux td mc O).asgs.map (·.id))).1.logicGrid.getWormIdAt x y = -1 := by
  obtain ⟨_, h1, h2, h3⟩ := gen_replay m td mc O hw hh hok
  refine ⟨?_, ?_, ?_⟩
  · exact h1
  · exact h2
  · exact h3

/-- Witness for the amended C2: the deterministic 1×5 run. -/
theorem C2_assignment_order_replay_witness :
    0 ≤ (GameManager.new 1 5).gridWidth ∧ 0 ≤ (GameManager.new 1 5).gridHeight ∧
    ((GameManager.new 1 5).generateLevel q95 0 O15).2 = true ∧
    ((removeAll ((GameManager.new 1 5).generateLevel q95 0 O15).1
      (((GameManager.new 1 5).generateLevelAux q95 0 O15).asgs.map (·.id))).2 = true ∧
    (removeAll ((GameManager.new 1 5).generateLevel q95 0 O15).1
      (((GameManager.new 1 5).generateLevelAux q95 0 O15).asgs.map (·.id))).1.logicGrid.worms
        = [] ∧
    ∀ x y : Int, (removeAll ((GameManager.new 1 5).generateLevel q95 0 O15).1
      (((GameManager.new 1 5).generateLevelAux q95 0
        O15).asgs.map (·.id))).1.logicGrid.getWormIdAt x y = -1) :=
  ⟨by decide, by decide, by decide,
   C2_assignment_order_replay (GameManager.new 1 5) q95 0 O15
     (by decide) (by decide) (by decide)⟩

/-! ## C7: the assigned direction never runs through the worm itself -/

/-- C7: for every level on which `generateLevel` returns `true`
(nonnegative dimensions) and every worm of that level, the ray starting at
the worm's head and stepping cell-by-cell in the worm's assigned direction
never enters one of that worm's own body cells before leaving the grid. -/
theorem C7_self_block_correct (m : GameManager) (td : ℚ) (mc : Nat) (O : Oracle)
    (hw : 0 ≤ m.gridWidth) (hh : 0 ≤ m.gridHeight)
    (hok : (m.generateLevel td mc O).2 = true) :
    ∀ u ∈ (m.generateLevel td mc O).1.logicGrid.worms,
      SelfClearRay (m.generateLevel td mc O).1.logicGrid u.cells u.direction := by
  intro u hu
  exact gen_selfclear m td mc O hw hh hok u hu

/-- Witness for C7: the deterministic 1×5 run. -/
theorem C7_self_block_correct_witness :
    0 ≤ (GameManager.new 1 5).gridWidth ∧ 0 ≤ (GameManager.new 1 5).gridHeight ∧
    ((GameManager.new 1 5).generateLevel q95 0 O15).2 = true ∧
    ∀ u ∈ ((GameManager.new 1 5).generateLevel q95 0 O15).1.logicGrid.worms,
      SelfClearRay ((GameManager.new 1 5).generateLevel q95 0 O15).1.logicGrid
        u.cells u.direction :=
  ⟨by decide, by decide, by decide,
   C7_self_block_correct (GameManager.new 1 5) q95 0 O15 (by decide) (by decide) (by decide)⟩


/-! ## C6: export/import round trip -/

theorem isEmpty_of_valid_read (g : LogicalGrid) (x y : Int)
    (hv : g.isValid x y = true) (hr : g.getWormIdAt x y = -1) :
    g.isEmpty x y = true := by
  unfold LogicalGrid.isEmpty
  rw [Bool.and_eq_true]
  refine ⟨hv, ?_⟩
  have hinb : cellInB g.width g.height ⟨x, y⟩ := (isValid_iff g x y).mp hv
  rw [getWormIdAt_inb g x y hinb] at hr
  unfold readAt at hr
  rw [hr]
  rfl

/-- Re-adding the worms of a well-formed grid, one by one into a fresh
grid of the same dimensions, succeeds and reproduces the worm list. -/
theorem importWorms_adds (gFull : LogicalGrid) (hWF : GridWF gFull) :
    ∀ (sfx pfx : List Worm) (cur : LogicalGrid),
      gFull.worms = pfx ++ sfx →
      GridWF cur → cur.width = gFull.width → cur.height = gFull.height →
      cur.worms = pfx →
      (importWorms cur (sfx.map (fun w => ⟨w.id, w.cells, w.direction, w.color⟩))).2
        = true ∧
      (importWorms cur (sfx.map (fun w => ⟨w.id, w.cells, w.direction, w.color⟩))).1.worms
        = gFull.worms ∧
      (importWorms cur (sfx.map (fun w => ⟨w.id, w.cells, w.direction, w.color⟩))).1.width
        = gFull.width ∧
      (importWorms cur (sfx.map (fun w => ⟨w.id, w.cells, w.direction, w.color⟩))).1.height
        = gFull.height := by
  intro sfx
  induction sfx with
  | nil =>
    intro pfx cur hsplit hWFc hwc hhc hworms
    refine ⟨rfl, ?_, hwc, hhc⟩
    show cur.worms = gFull.worms
    rw [hworms, hsplit, List.append_nil]
  | cons w sfx ih =>
    intro pfx cur hsplit hWFc hwc hhc hworms
    have hwmemF : w ∈ gFull.worms := by
      rw [hsplit]
      exact List.mem_append_right _ (List.mem_cons_self _ _)
    obtain ⟨hid0, hcne, hcvalid⟩ := hWF.2.2.2.2.2.1 w hwmemF
    have hnodupF : (idsOf gFull).Nodup := hWF.2.2.2.2.1
    have hsplitIds : idsOf gFull
        = pfx.map (fun u => u.id) ++ w.id :: sfx.map (fun u => u.id) := by
      unfold idsOf
      rw [hsplit, List.map_append, List.map_cons]
    have hwidnot : w.id ∉ pfx.map (fun u => u.id) := by
      intro hc
      rw [hsplitIds] at hnodupF
      exact (List.disjoint_of_nodup_append hnodupF) hc (List.mem_cons_self _ _)
    have hpre : AddPre cur w := by
      refine ⟨hid0, ?_, hcne, ?_⟩
      · intro hc
        unfold idsOf at hc
        rw [hworms] at hc
        exact hwidnot hc
      · intro p hp
        have hvalc : cur.isValid p.x p.y = true := by
          rw [isValid_congr gFull cur hwc hhc]
          exact hcvalid p hp
        apply isEmpty_of_valid_read cur p.x p.y hvalc
        by_contra hne
        have hinb : cellInB cur.width cur.height ⟨p.x, p.y⟩ :=
          (isValid_iff cur p.x p.y).mp hvalc
        rcases gridWF_corr cur hWFc p.x p.y hinb with hcor | hcor
        · have hm : cur.getWormIdAt p.x p.y ∈ ownersAt cur ⟨p.x, p.y⟩ := by
            rw [hcor]
            exact List.mem_singleton_self _
          obtain ⟨u, humem, huid, hup⟩ := (mem_ownersAt _ _ _).mp hm
          have hup2 : p ∈ u.cells := by
            cases p
            exact hup
          rw [hworms] at humem
          have humemF : u ∈ gFull.worms := by
            rw [hsplit]
            exact List.mem_append_left _ humem
          have huw : u = w := gridWF_disjoint gFull hWF u w humemF hwmemF p hup2 hp
          exact hwidnot (List.mem_map.mpr ⟨u, humem, by rw [huw]⟩)
        · exact hne hcor.2
    obtain ⟨hflag, haw, hah, haworms, _, haWF⟩ := addWorm_spec cur w hWFc hpre
    simp only [List.map_cons, importWorms]
    have hbw : (⟨w.id, w.cells, w.direction, w.color⟩ : Worm) = w := rfl
    rw [hbw]
    rcases hadd : cur.addWorm w with ⟨g2, flag⟩
    rw [hadd] at hflag haw hah haworms haWF
    simp only [] at hflag haw hah haworms haWF
    rw [hflag]
    simp only []
    exact ih (pfx ++ [w]) g2
      (by rw [hsplit]; simp)
      haWF (haw.trans hwc) (hah.trans hhc) (by rw [haworms, hworms])


/-- C6 counterexample: on a 0×0 grid `generateLevel` succeeds vacuously,
but `importLevel(exportLevel())` returns `false`: the exported snapshot
has `w = 0`, which the falsy-field guard `!data.w` rejects, so the round
trip fails for a level on which `generateLevel` has just returned `true`. -/
theorem C6_counterexample :
    R6ce.ok = true ∧
    (R6ce.manager.importLevel R6ce.manager.exportLevel).2 = false :=
  ⟨by decide, by decide⟩

/-- C6 (amended): for POSITIVE dimensions, the round trip works:
`importLevel(exportLevel())` returns `true` and reconstructs the same
width, the same height and the very same worm list (same ids, cells in
the same head-first order, directions and colors) as the generated
level. -/
theorem C6_round_trip (m : GameManager) (td : ℚ) (mc : Nat) (O : Oracle)
    (hw : 0 < m.gridWidth) (hh : 0 < m.gridHeight)
    (hok : (m.generateLevel td mc O).2 = true) :
    ((m.generateLevel td mc O).1.importLevel (m.generateLevel td mc O).1.exportLevel).2
      = true ∧
    ((m.generateLevel td mc O).1.importLevel
      (m.generateLevel td mc O).1.exportLevel).1.gridWidth
      = (m.generateLevel td mc O).1.gridWidth ∧
    ((m.generateLevel td mc O).1.importLevel
      (m.generateLevel td mc O).1.exportLevel).1.gridHeight
      = (m.generateLevel td mc O).1.gridHeight ∧
    ((m.generateLevel td mc O).1.importLevel
      (m.generateLevel td mc O).1.exportLevel).1.logicGrid.worms
      = (m.generateLevel td mc O).1.logicGrid.worms := by
  have hfst : (m.generateLevel td mc O).1 = (m.generateLevelAux td mc O).manager := rfl
  rw [hfst]
  obtain ⟨pk1, sk1, g1, sk2, h1, hmc, hgw, hgh, hml, hjson⟩ :=
    genLoop_success td mc O 10000 m 0 0 (m.generateLevelAux td mc O) rfl hok
  simp only [] at h1
  obtain ⟨hassign, hatt⟩ := h1
  have hWFnew := gridWF_new m.gridWidth m.gridHeight (le_of_lt hw) (le_of_lt hh)
  obtain ⟨hWFst, hwst, hhst, _, _⟩ := fillLoop_wf td O 5000
    ⟨LogicalGrid.new m.gridWidth m.gridHeight, 0, 0, pk1, sk1⟩ hWFnew (Int.le_refl 0)
    (by intro u hu; exact absurd hu (by simp [LogicalGrid.new]))
  obtain ⟨hPeeled, hg1⟩ := assignDirections_success _ O _ g1 _ sk2 hassign
  have hWFg1 : GridWF g1 := by
    rw [hg1]
    exact gridWF_applyAssignments _ _ hWFst
  obtain ⟨hfw, hfh, _⟩ := applyAssignments_frame ((m.generateLevelAux td mc O).asgs)
    (fillLoop td O ⟨LogicalGrid.new m.gridWidth m.gridHeight, 0, 0, pk1, sk1⟩ 5000).grid
  have hg1w : g1.width = m.gridWidth := by
    rw [hg1]
    exact hfw.trans hwst
  have hg1h : g1.height = m.gridHeight := by
    rw [hg1]
    exact hfh.trans hhst
  simp only [GameManager.exportLevel]
  rw [hjson]
  simp only [GameManager.importLevel, GameManager.reset]
  have hne1 : truthyInt (some m.gridWidth) = true := by
    show (!(m.gridWidth == 0)) = true
    rw [Bool.not_eq_true']
    rw [beq_eq_false_iff_ne]
    omega
  have hne2 : truthyInt (some m.gridHeight) = true := by
    show (!(m.gridHeight == 0)) = true
    rw [Bool.not_eq_true']
    rw [beq_eq_false_iff_ne]
    omega
  have hcond : (!truthyInt (some m.gridWidth) || !truthyInt (some m.gridHeight) ||
      (some (g1.worms.map (fun w =>
        (⟨w.id, w.cells, w.direction, w.color⟩ : WormData)))).isNone)
      = false := by
    rw [hne1, hne2]
    rfl
  rw [if_neg (by rw [hcond]; simp)]
  simp only [Option.getD_some]
  rw [if_neg (by intro hc; rcases hc with hc | hc <;> omega)]
  obtain ⟨hi1, hi2, hi3, hi4⟩ := importWorms_adds g1 hWFg1 g1.worms []
    (LogicalGrid.new m.gridWidth m.gridHeight)
    (by simp)
    (gridWF_new _ _ (le_of_lt hw) (le_of_lt hh))
    (by show m.gridWidth = g1.width; exact hg1w.symm)
    (by show m.gridHeight = g1.height; exact hg1h.symm)
    rfl
  rcases himp : importWorms (LogicalGrid.new m.gridWidth m.gridHeight)
      (g1.worms.map (fun w => ⟨w.id, w.cells, w.direction, w.color⟩)) with ⟨g2, flag⟩
  rw [himp] at hi1 hi2 hi3 hi4
  simp only [] at hi1 hi2 hi3 hi4
  rw [himp, hi1]
  simp only []
  refine ⟨trivial, ?_, ?_, ?_⟩
  · show m.gridWidth = (m.generateLevelAux td mc O).manager.gridWidth
    rw [hgw]
  · show m.gridHeight = (m.generateLevelAux td mc O).manager.gridHeight
    rw [hgh]
  · show g2.worms = (m.generateLevelAux td mc O).manager.logicGrid.worms
    rw [hml, hi2]

/-- Witness for the amended C6: the deterministic 1×5 run round-trips. -/
theorem C6_round_trip_witness :
    0 < (GameManager.new 1 5).gridWidth ∧ 0 < (GameManager.new 1 5).gridHeight ∧
    ((GameManager.new 1 5).generateLevel q95 0 O15).2 = true ∧
    ((((GameManager.new 1 5).generateLevel q95 0 O15).1.importLevel
      ((GameManager.new 1 5).generateLevel q95 0 O15).1.exportLevel).2 = true ∧
    (((GameManager.new 1 5).generateLevel q95 0 O15).1.importLevel
      ((GameManager.new 1 5).generateLevel q95 0 O15).1.exportLevel).1.gridWidth
      = ((GameManager.new 1 5).generateLevel q95 0 O15).1.gridWidth ∧
    (((GameManager.new 1 5).generateLevel q95 0 O15).1.importLevel
      ((GameManager.new 1 5).generateLevel q95 0 O15).1.exportLevel).1.gridHeight
      = ((GameManager.new 1 5).generateLevel q95 0 O15).1.gridHeight ∧
    (((GameManager.new 1 5).generateLevel q95 0 O15).1.importLevel
      ((GameManager.new 1 5).generateLevel q95 0 O15).1.exportLevel).1.logicGrid.worms
      = ((GameManager.new 1 5).generateLevel q95 0 O15).1.logicGrid.worms) :=
  ⟨by decide, by decide, by decide,
   C6_round_trip (GameManager.new 1 5) q95 0 O15 (by decide) (by decide) (by decide)⟩


/-! ## C8: the density floor -/

set_option maxRecDepth 100000 in
theorem st8_eval : st8 = ⟨g8, 2, 2, 6, 10⟩ := by decide

set_option maxRecDepth 100000 in
theorem fillLoop_O8_two (f : Nat) :
    fillLoop q95 O8ce ⟨LogicalGrid.new 25 35, 0, 0, 0, 0⟩ (f + 2) =
      fillLoop q95 O8ce ⟨g8, 2, 2, 6, 10⟩ f := by
  rfl

set_option maxRecDepth 100000 in
theorem fillLoop_O8_stuck :
    ∀ (f : Nat) (nid : Int) (att t sk : Nat),
      fillLoop q95 O8ce ⟨g8, nid, att, t + 6, sk⟩ f =
        ⟨g8, nid + (f : Int), att + f, t + 6 + 3 * f, sk + f⟩ := by
  intro f
  induction f with
  | zero =>
    intro nid att t sk
    simp only [fillLoop]
    congr 1 <;> omega
  | succ n ih =>
    intro nid att t sk
    have hp0 : O8ce.pick (t + 6) = 0 := by
      show (if t + 6 < 3 then 25 else if t + 6 < 6 then 1 else 0) = 0
      rw [if_neg (by omega), if_neg (by omega)]
    have hp1 : O8ce.pick (t + 6 + 1) = 0 := by
      show (if t + 6 + 1 < 3 then 25 else if t + 6 + 1 < 6 then 1 else 0) = 0
      rw [if_neg (by omega), if_neg (by omega)]
    have hp2 : O8ce.pick (t + 6 + 2) = 0 := by
      show (if t + 6 + 2 < 3 then 25 else if t + 6 + 2 < 6 then 1 else 0) = 0
      rw [if_neg (by omega), if_neg (by omega)]
    simp only [fillLoop]
    rw [if_neg (by decide : ¬(densityReached
      ((g8.width * g8.height) - ((emptyCellsList g8).length : Int))
      (g8.width * g8.height) q95 = true))]
    rw [if_neg (by decide : ¬((emptyCellsList g8).length = 0))]
    rw [hp0, hp1, hp2]
    simp only [Nat.zero_mod]
    rw [show (emptyCellsList g8).getD 0 (⟨0, 0⟩ : Point) = ⟨0, 0⟩ from by decide]
    rw [show growWorm g8 O8ce (0 + 5 - 1) [(⟨0, 0⟩ : Point)] ⟨0, 0⟩ sk
        = ([⟨0, 0⟩], sk + 1) from rfl]
    simp only []
    rw [if_pos (by decide : ([(⟨0, 0⟩ : Point)] : List Point).length < 5)]
    rw [show t + 6 + 3 = (t + 3) + 6 from by omega]
    rw [ih (nid + 1) (att + 1) (t + 3) (sk + 1)]
    congr 1 <;> omega

set_option maxRecDepth 100000 in
theorem fillLoop_O8_full :
    fillLoop q95 O8ce ⟨LogicalGrid.new 25 35, 0, 0, 0, 0⟩ 5000 =
      ⟨g8, 5000, 5000, 15000, 5008⟩ := by
  rw [show (5000 : Nat) = 4998 + 2 from rfl, fillLoop_O8_two 4998]
  rw [show (⟨g8, 2, 2, 6, 10⟩ : FillState) = ⟨g8, 2, 2, 0 + 6, 10⟩ from rfl]
  rw [fillLoop_O8_stuck 4998 2 2 0 10]
  congr 1 <;> omega

/-- One successful `genLoop` retry, stated symbolically so concrete runs
can be evaluated without unfolding the fill loop in place. -/
theorem genLoop_step (td : ℚ) (mc : Nat) (O : Oracle) (m : GameManager)
    (pk sk fuel : Nat) (stR : FillState)
    (hfill : fillLoop td O ⟨(m.reset).logicGrid, 0, 0, pk, sk⟩ 5000 = stR)
    (g1 : LogicalGrid) (asgs : List Assignment) (sk2 : Nat)
    (hass : assignDirectionsTopologically stR.grid O stR.sk = (g1, true, asgs, sk2))
    (hmc : ¬(mc > 0 ∧ g1.worms.length < mc)) :
    genLoop td mc O m pk sk (fuel + 1) =
      ⟨⟨m.gridWidth, m.gridHeight, g1, .parsed ⟨some m.gridWidth, some m.gridHeight,
          some (g1.worms.map (fun w => ⟨w.id, w.cells, w.direction, w.color⟩))⟩⟩,
        true, asgs, stR.attempts⟩ := by
  simp only [genLoop]
  rw [hfill, hass]
  simp only []
  rw [if_pos trivial, if_neg hmc]
  rfl

set_option maxRecDepth 100000 in
theorem genO8_eval :
    (GameManager.new 25 35).generateLevelAux q95 0 O8ce =
      ⟨⟨25, 35, applyAssignments g8 [⟨0, Dir.UP, false⟩, ⟨1, Dir.UP, false⟩],
          .parsed ⟨some 25, some 35,
            some ((applyAssignments g8 [⟨0, Dir.UP, false⟩, ⟨1, Dir.UP, false⟩]).worms.map
              (fun w => ⟨w.id, w.cells, w.direction, w.color⟩))⟩⟩,
        true, [⟨0, Dir.UP, false⟩, ⟨1, Dir.UP, false⟩], 5000⟩ := by
  unfold GameManager.generateLevelAux
  rw [show (10000 : Nat) = 9999 + 1 from rfl]
  rw [genLoop_step q95 0 O8ce (GameManager.new 25 35) 0 0 9999
    ⟨g8, 5000, 5000, 15000, 5008⟩
    (by
      rw [show (⟨((GameManager.new 25 35).reset).logicGrid, 0, 0, 0, 0⟩ : FillState)
          = ⟨LogicalGrid.new 25 35, 0, 0, 0, 0⟩ from rfl]
      exact fillLoop_O8_full)
    (applyAssignments g8 [⟨0, Dir.UP, false⟩, ⟨1, Dir.UP, false⟩])
    [⟨0, Dir.UP, false⟩, ⟨1, Dir.UP, false⟩] 5010
    (by decide)
    (by simp)]
  rfl


theorem length_filterMap_if {α β : Type} (p : α → Bool) (f : α → β) :
    ∀ l : List α,
      (l.filterMap (fun x => if p x then some (f x) else none)).length
        = (l.filter p).length := by
  intro l
  induction l with
  | nil => rfl
  | cons a t ih =>
    rw [List.filterMap_cons, List.filter_cons]
    by_cases h : p a = true
    · rw [if_pos h, if_pos h]
      simp only []
      rw [List.length_cons, List.length_cons, ih]
    · rw [if_neg h, if_neg h]
      exact ih

theorem countEmpty_eq (m : GameManager) (hw : m.gridWidth = m.logicGrid.width)
    (hh : m.gridHeight = m.logicGrid.height) :
    m.countEmpty = (emptyCellsList m.logicGrid).length := by
  unfold GameManager.countEmpty emptyCellsList
  rw [hw, hh, List.length_flatMap]
  congr 1
  apply List.map_congr_left
  intro y _
  simp only [Function.comp]
  rw [length_filterMap_if]

theorem emptyCellsList_congr (g g' : LogicalGrid) (hw : g'.width = g.width)
    (hh : g'.height = g.height) (hg : g'.grid = g.grid) :
    emptyCellsList g' = emptyCellsList g := by
  have hie : ∀ x y : Int, g'.isEmpty x y = g.isEmpty x y := by
    intro x y
    unfold LogicalGrid.isEmpty
    rw [isValid_congr g g' hw hh, hg]
  unfold emptyCellsList
  rw [hw, hh]
  simp only [hie]

/-- Exit analysis of the fill loop: the run either used every unit of
fuel, or stopped at a grid that satisfies one of the two break
conditions (density target reached, or no empty cell left). -/
theorem fillLoop_exit (td : ℚ) (O : Oracle) :
    ∀ (fuel : Nat) (st : FillState),
      (fillLoop td O st fuel).attempts ≤ st.attempts + fuel ∧
      ((fillLoop td O st fuel).attempts = st.attempts + fuel ∨
        densityReached
          ((fillLoop td O st fuel).grid.width * (fillLoop td O st fuel).grid.height
            - ((emptyCellsList (fillLoop td O st fuel).grid).length : Int))
          ((fillLoop td O st fuel).grid.width * (fillLoop td O st fuel).grid.height)
          td = true ∨
        (emptyCellsList (fillLoop td O st fuel).grid).length = 0) := by
  intro fuel
  induction fuel with
  | zero =>
    intro st
    exact ⟨Nat.le_refl _, Or.inl rfl⟩
  | succ n ih =>
    intro st
    simp only [fillLoop]
    split
    · refine ⟨?_, ?_⟩
      · show st.attempts + 1 ≤ st.attempts + (n + 1)
        omega
      · rename_i hdens
        exact Or.inr (Or.inl hdens)
    · split
      · rename_i hlen
        refine ⟨?_, ?_⟩
        · show st.attempts + 1 ≤ st.attempts + (n + 1)
          omega
        · exact Or.inr (Or.inr hlen)
      · rename_i hlen
        set start := (emptyCellsList st.grid).getD
          (O.pick st.pk % (emptyCellsList st.grid).length) (⟨0, 0⟩ : Point) with hstartdef
        set gw := growWorm st.grid O (O.pick (st.pk + 2) % 4 + 5 - 1) [start] start st.sk
          with hgw
        split
        · obtain ⟨ih1, ih2⟩ := ih
            { grid := st.grid, nextId := st.nextId + 1,
              attempts := st.attempts + 1, pk := st.pk + 3, sk := gw.2 }
          refine ⟨?_, ?_⟩
          · exact le_trans ih1
              (by show st.attempts + 1 + n ≤ st.attempts + (n + 1); omega)
          · rcases ih2 with h | h | h
            · exact Or.inl (h.trans
                (by show st.attempts + 1 + n = st.attempts + (n + 1); omega))
            · exact Or.inr (Or.inl h)
            · exact Or.inr (Or.inr h)
        · obtain ⟨ih1, ih2⟩ := ih
            { grid := (st.grid.addWorm ⟨st.nextId, gw.1, .UP,
                PALETTE.getD (O.pick (st.pk + 1) % PALETTE.length) 0⟩).1,
              nextId := st.nextId + 1, attempts := st.attempts + 1,
              pk := st.pk + 3, sk := gw.2 }
          refine ⟨?_, ?_⟩
          · exact le_trans ih1
              (by show st.attempts + 1 + n ≤ st.attempts + (n + 1); omega)
          · rcases ih2 with h | h | h
            · exact Or.inl (h.trans
                (by show st.attempts + 1 + n = st.attempts + (n + 1); omega))
            · exact Or.inr (Or.inl h)
            · exact Or.inr (Or.inr h)

set_option maxRecDepth 100000 in
/-- C8 counterexample: on the 25×35 grid, `generateLevel(0.95, 0)` driven
by `O8ce` succeeds (the `.ok` flag of `generateLevelAux`, which is by
definition the Boolean `generateLevel` returns) with only 12 occupied
cells out of 875: two 6-cell worms wall off the corner, every later fill
attempt starts at the trapped corner cell and is discarded undersized,
and Phase 1 burns all 5000 attempts.  The claimed floor is
0.95·875 − 4 = 827.25 (at most one discarded undersized worm of < 5
cells); 12 is far below it (stated cross-multiplied by 20:
20·12 < 19·875 − 80). -/
theorem C8_counterexample :
    ((GameManager.new 25 35).generateLevelAux q95 0 O8ce).ok = true ∧
    ((GameManager.new 25 35).generateLevelAux q95 0 O8ce).manager.occupiedCells = 12 ∧
    20 * 12 < 19 * 875 - 80 :=
  ⟨(congrArg GenResult.ok genO8_eval).trans rfl,
   (congrArg (fun r => r.manager.occupiedCells) genO8_eval).trans (by decide),
   by norm_num⟩

/-- C8 (amended): what a successful `generateLevel(td, mc)` run actually
guarantees about density: either the cross-multiplied density comparison
`occupied / total ≥ td` holds for the returned level, or the board
filled completely, or Phase 1 burned all of its 5000 fill attempts — in
which case no density floor holds at all (`C8_counterexample`).  With
`td = 0.95` on 25×35 the first disjunct is `occupied ≥ 831.25`. -/
theorem C8_density_or_exhaustion (m : GameManager) (td : ℚ) (mc : Nat) (O : Oracle)
    (hw : 0 ≤ m.gridWidth) (hh : 0 ≤ m.gridHeight)
    (hok : (m.generateLevel td mc O).2 = true) :
    td.num * (m.gridWidth * m.gridHeight) ≤
        (m.generateLevel td mc O).1.occupiedCells * (td.den : Int) ∨
    (m.generateLevel td mc O).1.occupiedCells = m.gridWidth * m.gridHeight ∨
    (m.generateLevelAux td mc O).fillAttempts = 5000 := by
  have hfst : (m.generateLevel td mc O).1 = (m.generateLevelAux td mc O).manager := rfl
  rw [hfst]
  obtain ⟨pk1, sk1, g1, sk2, h1, hmc, hgw, hgh, hml, hjson⟩ :=
    genLoop_success td mc O 10000 m 0 0 (m.generateLevelAux td mc O) rfl hok
  simp only [] at h1
  obtain ⟨hassign, hatt⟩ := h1
  have hWFnew := gridWF_new m.gridWidth m.gridHeight hw hh
  obtain ⟨hWFst, hwst, hhst, _, _⟩ := fillLoop_wf td O 5000
    ⟨LogicalGrid.new m.gridWidth m.gridHeight, 0, 0, pk1, sk1⟩ hWFnew (Int.le_refl 0)
    (by intro u hu; exact absurd hu (by simp [LogicalGrid.new]))
  have hwst2 : (fillLoop td O
      ⟨LogicalGrid.new m.gridWidth m.gridHeight, 0, 0, pk1, sk1⟩ 5000).grid.width
      = m.gridWidth := hwst
  have hhst2 : (fillLoop td O
      ⟨LogicalGrid.new m.gridWidth m.gridHeight, 0, 0, pk1, sk1⟩ 5000).grid.height
      = m.gridHeight := hhst
  obtain ⟨hPeeled, hg1⟩ := assignDirections_success _ O _ g1 _ sk2 hassign
  obtain ⟨hfw, hfh, hfg⟩ := applyAssignments_frame ((m.generateLevelAux td mc O).asgs)
    (fillLoop td O ⟨LogicalGrid.new m.gridWidth m.gridHeight, 0, 0, pk1, sk1⟩ 5000).grid
  have hg1w : g1.width = m.gridWidth := by rw [hg1]; exact hfw.trans hwst2
  have hg1h : g1.height = m.gridHeight := by rw [hg1]; exact hfh.trans hhst2
  have hEC : emptyCellsList g1 = emptyCellsList (fillLoop td O
      ⟨LogicalGrid.new m.gridWidth m.gridHeight, 0, 0, pk1, sk1⟩ 5000).grid := by
    rw [hg1]
    exact emptyCellsList_congr _ _ hfw hfh hfg
  have hce : (m.generateLevelAux td mc O).manager.countEmpty
      = (emptyCellsList (fillLoop td O
        ⟨LogicalGrid.new m.gridWidth m.gridHeight, 0, 0, pk1, sk1⟩ 5000).grid).length := by
    rw [countEmpty_eq _ (by rw [hgw, hml, hg1w]) (by rw [hgh, hml, hg1h]), hml, hEC]
  have hocc : (m.generateLevelAux td mc O).manager.occupiedCells
      = m.gridWidth * m.gridHeight - ((emptyCellsList (fillLoop td O
        ⟨LogicalGrid.new m.gridWidth m.gridHeight, 0, 0, pk1, sk1⟩ 5000).grid).length
          : Int) := by
    unfold GameManager.occupiedCells
    rw [hgw, hgh, hce]
  obtain ⟨hle, hdisj⟩ := fillLoop_exit td O 5000
    ⟨LogicalGrid.new m.gridWidth m.gridHeight, 0, 0, pk1, sk1⟩
  rcases hdisj with hA | hD | hE
  · refine Or.inr (Or.inr ?_)
    rw [hatt, hA]
  · refine Or.inl ?_
    unfold densityReached at hD
    rw [Bool.and_eq_true] at hD
    obtain ⟨-, hD2⟩ := hD
    rw [decide_eq_true_eq] at hD2
    rw [hwst2, hhst2] at hD2
    rw [hocc]
    exact hD2
  · refine Or.inr (Or.inl ?_)
    rw [hocc, hE]
    simp

/-- Witness for the amended C8: the 1×5 run fills the whole board
(second disjunct). -/
theorem C8_density_or_exhaustion_witness :
    0 ≤ (GameManager.new 1 5).gridWidth ∧ 0 ≤ (GameManager.new 1 5).gridHeight ∧
    ((GameManager.new 1 5).generateLevel q95 0 O15).2 = true ∧
    (q95.num * ((GameManager.new 1 5).gridWidth * (GameManager.new 1 5).gridHeight) ≤
        ((GameManager.new 1 5).generateLevel q95 0 O15).1.occupiedCells * (q95.den : Int) ∨
    ((GameManager.new 1 5).generateLevel q95 0 O15).1.occupiedCells
      = (GameManager.new 1 5).gridWidth * (GameManager.new 1 5).gridHeight ∨
    ((GameManager.new 1 5).generateLevelAux q95 0 O15).fillAttempts = 5000) :=
  ⟨by decide, by decide, by decide,
   C8_density_or_exhaustion (GameManager.new 1 5) q95 0 O15
     (by decide) (by decide) (by decide)⟩

end ArrowPuzzle
